import Mathlib

/-!
# Crumbwise — verification of the task lifecycle / timeline engine

Shallow embedding of the core logic of `crumbwise.py` (section classifier,
lifecycle engine `handle_section_transition`, timeline span builder,
task-line serialization round trip, project reordering, completion toggle),
together with theorems settling the specification claims.

Conventions of the embedding:
* Python `None`-able string fields become `Option String`; Python truthiness
  of such a field (`if task.get(f):`) is `truthy`, which is false for both
  `none` and `some ""`.
* Calendar dates (`datetime.date` values obtained via
  `datetime.fromisoformat(s).date()`) are encoded as the natural number
  `y*10000 + m*100 + d`; on valid dates this encoding is strictly monotone
  in (y, m, d), so Python's date comparisons become `Nat` comparisons.
* `datetime.now()` is injected as an explicit `now` argument (the spec's
  "injectable clock"); all `now_iso()` calls inside one request use it.
* Functions that can raise / return error responses return `Option` /
  `Except String`.
-/

namespace Crumbwise

/-- Python `\s` / `str.strip()` whitespace, restricted to ASCII:
space, tab, newline, carriage return, vertical tab, form feed. -/
def pyIsSpace (c : Char) : Bool :=
  c = ' ' || c = '\t' || c = '\n' || c = '\r' || c = '\x0b' || c = '\x0c'

/-- Python `s.split(sep)` for a one-character separator: splits at every
occurrence, keeping empty pieces (`"a||b".split("|") == ["a","","b"]`,
`"".split("|") == [""]`). -/
def pySplitChar (sep : Char) : List Char → List (List Char)
  | [] => [[]]
  | x :: xs =>
    if x = sep then [] :: pySplitChar sep xs
    else
      match pySplitChar sep xs with
      | [] => [[x]]
      | g :: gs => (x :: g) :: gs

/-- Python `sep in s` together with `s.split(sep, 1)` for a one-character
separator: the pieces before and after the first occurrence, or `none` when
the separator does not occur. -/
def splitFirstChar (sep : Char) : List Char → Option (List Char × List Char)
  | [] => none
  | x :: xs =>
    if x = sep then some ([], xs)
    else (splitFirstChar sep xs).map (fun p => (x :: p.1, p.2))

/-- Python `s.startswith(pre)`. -/
def py_startswith (s pre : String) : Bool :=
  pre.data.isPrefixOf s.data

/-- Numeric value of a decimal digit character, `none` otherwise. -/
def digit? (c : Char) : Option Nat :=
  if c.isDigit then some (c.toNat - 48) else none

/-- Leap year rule used by `datetime`. -/
def isLeap (y : Nat) : Bool :=
  (y % 4 = 0 && y % 100 ≠ 0) || y % 400 = 0

/-- Days in a month, as validated by `datetime.date`. -/
def daysInMonth (y m : Nat) : Nat :=
  if m = 2 then (if isLeap y then 29 else 28)
  else if m = 4 || m = 6 || m = 9 || m = 11 then 30
  else 31

/-- Encode a valid calendar date as `y*10000 + m*100 + d`. -/
def dateCode (y m d : Nat) : Nat := y * 10000 + m * 100 + d

/-- Parse the `YYYY-MM-DD` part of an ISO string, with `datetime`'s
range validation.  Returns the `dateCode`. -/
def parseDateOnly (s : List Char) : Option Nat :=
  match s with
  | [y1, y2, y3, y4, '-', m1, m2, '-', d1, d2] => do
      let a ← digit? y1
      let b ← digit? y2
      let c ← digit? y3
      let d ← digit? y4
      let e ← digit? m1
      let f ← digit? m2
      let g ← digit? d1
      let h ← digit? d2
      let y := ((a * 10 + b) * 10 + c) * 10 + d
      let m := e * 10 + f
      let dd := g * 10 + h
      if 1 ≤ m && m ≤ 12 && 1 ≤ dd && dd ≤ daysInMonth y m then
        some (dateCode y m dd)
      else none
  | _ => none

/-- Validate an `HH[:MM[:SS]]` time-of-day component of an ISO string. -/
def validTimePart (s : List Char) : Bool :=
  let two (a b : Char) (bound : Nat) : Bool :=
    match digit? a, digit? b with
    | some x, some y => x * 10 + y < bound
    | _, _ => false
  match s with
  | [h1, h2] => two h1 h2 24
  | [h1, h2, ':', m1, m2] => two h1 h2 24 && two m1 m2 60
  | [h1, h2, ':', m1, m2, ':', s1, s2] => two h1 h2 24 && two m1 m2 60 && two s1 s2 60
  | _ => false

/-- Model of `datetime.fromisoformat(s).date()`: parse the ISO timestamp
(with optional `T`-separated time) and keep only the date, as a `dateCode`.
`none` models a raised `ValueError`. -/
def fromisoformat_date (s : String) : Option Nat :=
  match pySplitChar 'T' s.data with
  | [d] => parseDateOnly d
  | [d, t] => match parseDateOnly d with
      | none => none
      | some code => if validTimePart t then some code else none
  | _ => none

/-! ## Section classifier (static configuration lists from the source) -/

def PROJECT_SECTIONS : List String := ["PROJECTS", "COMPLETED PROJECTS"]

def IN_PROGRESS_SECTIONS : List String := ["IN PROGRESS TODAY"]

def CLEARS_IN_PROGRESS_SECTIONS : List String :=
  ["TODO THIS WEEK", "TODO NEXT WEEK", "TODO FOLLOWING WEEK",
   "BACKLOG HIGH PRIORITY", "BACKLOG MEDIUM PRIORITY", "BACKLOG LOW PRIORITY"]

def BLOCKED_SECTIONS : List String := ["BLOCKED"]

def DONE_SECTIONS : List String := ["DONE THIS WEEK"]

def RESEARCH_SECTIONS : List String :=
  ["PROBLEMS TO SOLVE", "THINGS TO RESEARCH", "RESEARCH IN PROGRESS", "RESEARCH DONE"]

/-- `is_done_section`: a section represents a "done" state iff it is listed
in `DONE_SECTIONS`, or starts with `"DONE Q"` (quarterly sections), or
starts with `"DONE 20"` (yearly sections). -/
def is_done_section (section_name : String) : Bool :=
  if DONE_SECTIONS.contains section_name then true
  else if py_startswith section_name "DONE Q" then true
  else if py_startswith section_name "DONE 20" then true
  else false

/-! ## Task data model -/

/-- A task record: the fields `parse_tasks` produces / `save_tasks` consumes.
`Option` fields model Python `None` (or an absent key). -/
structure Task where
  id : String
  text : String
  completed : Bool
  created : Option String := none
  updated : Option String := none
  in_progress : Option String := none
  completed_at : Option String := none
  blocked_at : Option String := none
  history : Option String := none
  assigned_project : Option String := none
  order_index : Option Int := none
  color_index : Option Int := none
deriving Repr, DecidableEq

/-- Python truthiness of an optional string field:
`None` and `""` are falsy, every other string is truthy. -/
def truthy : Option String → Bool
  | none => false
  | some s => s ≠ ""

/-- Python truthiness of an optional int field (`color_index`):
`None` and `0` are falsy. -/
def int_truthy : Option Int → Bool
  | none => false
  | some n => n ≠ 0

/-! ## Lifecycle engine -/

/-- The string produced by appending one history entry to the current
`history` field (the `append_history` helper inside
`handle_section_transition`): pipe-separated if a truthy history exists. -/
def history_with (h : Option String) (entry : String) : String :=
  if truthy h then h.getD "" ++ "|" ++ entry else entry

/-- `append_history(prefix)`: append `prefix ++ "@" ++ now` to the task's
history string. -/
def append_history (t : Task) (pfx now : String) : Task :=
  { t with history := some (history_with t.history (pfx ++ "@" ++ now)) }

/-- `handle_section_transition(task, source_section, target_section)` with the
clock injected as `now`.  Mirrors the source rule for rule:
research-source short circuit, then (a) in-progress target, (b) clears-target,
(c) blocked target, (d) done target, else no change. -/
def handle_section_transition (t : Task) (source_section target_section now : String) : Task :=
  if RESEARCH_SECTIONS.contains source_section then t
  else if IN_PROGRESS_SECTIONS.contains target_section then
    let t := if truthy t.in_progress then t else { t with in_progress := some now }
    let t := { t with blocked_at := none }
    append_history t "ip" now
  else if CLEARS_IN_PROGRESS_SECTIONS.contains target_section then
    let t := { t with in_progress := none, blocked_at := none }
    let t := if is_done_section source_section then { t with completed_at := none } else t
    append_history t "op" now
  else if BLOCKED_SECTIONS.contains target_section then
    let t := { t with blocked_at := some now, in_progress := none }
    append_history t "bl" now
  else if is_done_section target_section then
    let t := { t with completed_at := some now, in_progress := none, blocked_at := none }
    append_history t "co" now
  else t

/-! ## Timeline span builder -/

/-- A timeline span `{start, end, status}`; `start`/`stop` are `dateCode`s
(the source emits them as ISO date strings). -/
structure Span where
  start : Nat
  stop : Nat
  status : String
deriving Repr, DecidableEq

/-- `ACTIVE_STATUSES`: history prefixes that open a visible span. -/
def ACTIVE_STATUSES (pfx : String) : Option String :=
  if pfx = "ip" then some "in_progress"
  else if pfx = "bl" then some "blocked"
  else none

/-- Parse one pipe-separated history entry into `(prefix, event date)`;
`none` models the `continue` taken for a malformed entry (no `"@"`
separator, or an unparsable timestamp). -/
def parse_entry (entry : String) : Option (String × Nat) :=
  match splitFirstChar '@' entry.data with
  | none => none
  | some (p, ts) =>
    match fromisoformat_date (String.mk ts) with
    | none => none
    | some d => some (String.mk p, d)

/-- Parse a list of history entries, silently skipping malformed ones. -/
def parse_entries (entries : List String) : List (String × Nat) :=
  entries.filterMap parse_entry

/-- The pipe-split entries of a history string. -/
def history_entries (history_str : String) : List String :=
  (pySplitChar '|' history_str.data).map String.mk

/-- The end date of the span opened by one history entry: the date of the
next entry, or `today` for the final entry. -/
def next_date (today : Nat) : List (String × Nat) → Nat
  | [] => today
  | (_, d2) :: _ => d2

/-- The raw (unclipped) spans built from the parsed history entries:
`ip`/`bl` entries open a span ending at the next entry's date, or at
`today` for the final entry; `co`/`op` entries only close the previous
span. -/
def raw_spans (today : Nat) : List (String × Nat) → List Span
  | [] => []
  | (pfx, d) :: rest =>
    match ACTIVE_STATUSES pfx with
    | none => raw_spans today rest
    | some st => ⟨d, next_date today rest, st⟩ :: raw_spans today rest

/-- Clip spans to `[week_start, week_end]`, discarding spans entirely
outside the window. -/
def clip_spans (week_start week_end : Nat) (spans : List Span) : List Span :=
  spans.filterMap fun sp =>
    if sp.stop < week_start || sp.start > week_end then none
    else some ⟨max sp.start week_start, min sp.stop week_end, sp.status⟩

/-- Span computation from a list of history entries (factored out of
`compute_spans_from_history` so that theorems can talk about the entry
list directly). -/
def spans_of_entries (entries : List String) (today week_start week_end : Nat) : List Span :=
  clip_spans week_start week_end (raw_spans today (parse_entries entries))

/-- `compute_spans_from_history(history_str, task, today, week_start,
week_end)`: the task argument of the source is unused by its body. -/
def compute_spans_from_history (history_str : String) (today week_start week_end : Nat) :
    List Span :=
  spans_of_entries (history_entries history_str) today week_start week_end

/-- `compute_simplified_span`: single-span reconstruction for tasks with
timestamps but no history. -/
def compute_simplified_span (t : Task) (today week_start week_end : Nat)
    (section_name : String) : List Span :=
  if !truthy t.in_progress then []
  else
    match fromisoformat_date (t.in_progress.getD "") with
    | none => []
    | some start_date =>
      let end_date :=
        if truthy t.completed_at then
          (fromisoformat_date (t.completed_at.getD "")).getD today
        else if truthy t.blocked_at then
          (fromisoformat_date (t.blocked_at.getD "")).getD today
        else if is_done_section section_name then start_date
        else today
      if end_date < week_start || start_date > week_end then []
      else [⟨max start_date week_start, min end_date week_end, "in_progress"⟩]

/-- The loop of `_spans_from_terminal_history` over the (already reversed)
parsed entries: the first `co`/`bl` entry decides the result. -/
def terminal_span_of_entries (today week_start week_end : Nat) :
    List (String × Nat) → List Span
  | [] => []
  | (pfx, d) :: rest =>
    if pfx = "co" then
      if d < week_start || d > week_end then []
      else [⟨d, d, "in_progress"⟩]
    else if pfx = "bl" then
      if today < week_start || d > week_end then []
      else [⟨max d week_start, min today week_end, "blocked"⟩]
    else terminal_span_of_entries today week_start week_end rest

/-- `_spans_from_terminal_history`: single-day / open-to-today bar from the
most recent terminal history event (entries scanned newest first,
malformed ones skipped). -/
def spans_from_terminal_history (t : Task) (today week_start week_end : Nat) : List Span :=
  terminal_span_of_entries today week_start week_end
    (parse_entries (history_entries (t.history.getD ""))).reverse

/-- `_spans_from_timestamp_only`: spans for tasks with only `completed_at`
or `blocked_at` set, and no `in_progress`. -/
def spans_from_timestamp_only (t : Task) (today week_start week_end : Nat) : List Span :=
  if truthy t.completed_at then
    match fromisoformat_date (t.completed_at.getD "") with
    | none => []
    | some comp_date =>
      if comp_date < week_start || comp_date > week_end then []
      else [⟨comp_date, comp_date, "in_progress"⟩]
  else if truthy t.blocked_at then
    match fromisoformat_date (t.blocked_at.getD "") with
    | none => []
    | some bl_date =>
      if today < week_start || bl_date > week_end then []
      else [⟨max bl_date week_start, min today week_end, "blocked"⟩]
  else []

/-- The per-task span computation of the `/api/timeline` endpoint
(`get_timeline`): dispatch between the history-driven path (with
terminal-history fallback), the simplified-timestamp path, the
timestamp-only path, and the section-only single-day synthesis. -/
def timeline_spans_for_task (t : Task) (section_name : String)
    (today week_start week_end : Nat) : List Span :=
  if truthy t.history then
    let spans := compute_spans_from_history (t.history.getD "") today week_start week_end
    if spans.isEmpty && !truthy t.in_progress then
      spans_from_terminal_history t today week_start week_end
    else spans
  else if truthy t.in_progress then
    compute_simplified_span t today week_start week_end section_name
  else if truthy t.completed_at || truthy t.blocked_at then
    spans_from_timestamp_only t today week_start week_end
  else if IN_PROGRESS_SECTIONS.contains section_name
       || BLOCKED_SECTIONS.contains section_name then
    if week_start ≤ today && today ≤ week_end then
      [⟨today, today,
        if BLOCKED_SECTIONS.contains section_name then "blocked" else "in_progress"⟩]
    else []
  else []

/-! ## Store: task-line serialization (`save_tasks`) and parsing (`parse_tasks`)

The store writes one line per task,
`- [x] text <!-- key:value ... -->`, and reads it back with the regexes
`^- \[([ xX])\] (.+?)(?:\s*<!--\s*(.+?)\s*-->)?$` and `(\w+):([^\s]+)`.
The regex semantics (lazy groups, backtracking, `.` not matching newline,
anchored tail) are implemented operationally over `List Char` below. -/

/-- Python `s.strip()` from the left (ASCII whitespace). -/
def trimLeading (l : List Char) : List Char := l.dropWhile pyIsSpace

/-- Python `s.strip()` from the right (ASCII whitespace). -/
def trimTrailing (l : List Char) : List Char := (l.reverse.dropWhile pyIsSpace).reverse

/-- Python `s.strip()` (ASCII whitespace). -/
def py_strip (l : List Char) : List Char := trimTrailing (trimLeading l)

/-- Whether `pat` occurs as a contiguous substring (Python `pat in s`). -/
def containsSub (pat : List Char) : List Char → Bool
  | [] => pat.isEmpty
  | c :: rest => pat.isPrefixOf (c :: rest) || containsSub pat rest

/-- Digits of a natural number, least significant first (fuel-structural so
that it kernel-reduces; `fuel` must exceed the number of digits). -/
def natDigitsRevAux : Nat → Nat → List Char
  | 0, _ => []
  | fuel + 1, n =>
    if n < 10 then [Nat.digitChar n]
    else Nat.digitChar (n % 10) :: natDigitsRevAux fuel (n / 10)

/-- Model of Python `str(n)` for a natural number. -/
def py_str_nat (n : Nat) : String := ⟨(natDigitsRevAux (n + 1) n).reverse⟩

/-- Model of Python `str(i)` for an integer. -/
def py_str_int (i : Int) : String :=
  if i < 0 then "-" ++ py_str_nat i.natAbs else py_str_nat i.natAbs

/-- Read a nonempty all-digit list as a natural number. -/
def digits_to_nat (l : List Char) : Option Nat :=
  if l.isEmpty then none
  else
    l.foldl
      (fun acc c =>
        match acc, digit? c with
        | some a, some d => some (a * 10 + d)
        | _, _ => none)
      (some 0)

/-- Model of Python `int(s)` (optional sign, decimal digits; `none` models a
raised `ValueError`). -/
def parse_py_int (s : String) : Option Int :=
  match py_strip s.data with
  | '-' :: ds => (digits_to_nat ds).map (fun n => -(n : Int))
  | '+' :: ds => (digits_to_nat ds).map (fun n => (n : Int))
  | ds => (digits_to_nat ds).map (fun n => (n : Int))

/-- The `meta_parts` list built by `save_tasks` for one task: always `id`;
then `project:<color>` (project sections with a truthy color) or else
`assigned:<project>`; then each truthy timestamp/history field; then
`order_index` whenever it is not `None`. -/
def meta_parts (se : String) (t : Task) : List String :=
  ["id:" ++ t.id]
  ++ (if PROJECT_SECTIONS.contains se && int_truthy t.color_index then
        ["project:" ++ py_str_int (t.color_index.getD 0)]
      else if truthy t.assigned_project then
        ["assigned:" ++ t.assigned_project.getD ""]
      else [])
  ++ (if truthy t.created then ["created:" ++ t.created.getD ""] else [])
  ++ (if truthy t.updated then ["updated:" ++ t.updated.getD ""] else [])
  ++ (if truthy t.in_progress then ["in_progress:" ++ t.in_progress.getD ""] else [])
  ++ (if truthy t.completed_at then ["completed_at:" ++ t.completed_at.getD ""] else [])
  ++ (if truthy t.blocked_at then ["blocked_at:" ++ t.blocked_at.getD ""] else [])
  ++ (if truthy t.history then ["history:" ++ t.history.getD ""] else [])
  ++ (match t.order_index with
      | some oi => ["order_index:" ++ py_str_int oi]
      | none => [])

/-- The task line written by `save_tasks` for one task of section `se`. -/
def serialize_task_line (se : String) (t : Task) : String :=
  "- [" ++ (if t.completed then "x" else " ") ++ "] " ++ t.text
    ++ " <!-- " ++ String.intercalate " " (meta_parts se t) ++ " -->"

/-- The tail `\s*(.+?)\s*-->$` of the comment pattern applied to everything
after `<!--`: succeeds iff the input ends in `-->` and the lazy group can
take at least one newline-free character; the group receives the core with
surrounding whitespace stripped (for an all-whitespace core, backtracking
settles on its last newline-free character). -/
def extractMeta (l : List Char) : Option (List Char) :=
  match l.reverse with
  | '>' :: '-' :: '-' :: coreRev =>
    let core := coreRev.reverse
    let g3 := trimTrailing (trimLeading core)
    if g3.isEmpty then
      match coreRev.find? (fun c => c ≠ '\n') with
      | some c => some [c]
      | none => none
    else if g3.contains '\n' then none
    else some g3
  | _ => none

/-- The anchored comment pattern `\s*<!--\s*(.+?)\s*-->$` applied to a
remainder of the line: greedy `\s*`, literal `<!--`, then `extractMeta`. -/
def matchCommentPart (l : List Char) : Option (List Char) :=
  match l.dropWhile pyIsSpace with
  | '<' :: '!' :: '-' :: '-' :: rest => extractMeta rest
  | _ => none

/-- The lazy group-2 search of the task regex: starting after `- [c] `,
grow group 2 one (newline-free) character at a time; at each stop (group 2
nonempty) first try the comment alternative on the remainder, then the
group-absent alternative (which requires the remainder to be empty).
Returns `(group2, group3?)` for the leftmost-lazy match, `none` when the
regex does not match. -/
def lazySplit : List Char → List Char → Option (List Char × Option (List Char))
  | [], [] => none
  | [], c :: rs => if c = '\n' then none else lazySplit [c] rs
  | taken, [] => some (taken, none)
  | taken, c :: rs =>
    match matchCommentPart (c :: rs) with
    | some meta => some (taken, some meta)
    | none => if c = '\n' then none else lazySplit (taken ++ [c]) rs

/-- Python `\w` (ASCII scope). -/
def isWordChar (c : Char) : Bool := c.isAlphanum || c = '_'

/-- Fuel-structural worker for `scanMeta` (so that it kernel-reduces);
`fuel` bounds the input length. -/
def scanMetaAux : Nat → List Char → List (String × String)
  | 0, _ => []
  | _, [] => []
  | fuel + 1, c :: rest =>
    if isWordChar c then
      match rest.dropWhile isWordChar with
      | x :: rem2 =>
        if x = ':' then
          let v := rem2.takeWhile (fun ch => !pyIsSpace ch)
          let rem3 := rem2.dropWhile (fun ch => !pyIsSpace ch)
          if v.isEmpty then scanMetaAux fuel rest
          else (⟨c :: rest.takeWhile isWordChar⟩, ⟨v⟩) :: scanMetaAux fuel rem3
        else scanMetaAux fuel rest
      | [] => scanMetaAux fuel rest
    else scanMetaAux fuel rest

/-- `re.finditer(r"(\w+):([^\s]+)", meta_str)`: leftmost, non-overlapping
`key:value` matches with a greedy word-character key and a greedy
non-whitespace value. -/
def scanMeta (l : List Char) : List (String × String) :=
  scanMetaAux l.length l

/-- Lookup in the metadata dict built from the scanned pairs (later pairs
overwrite earlier ones, as for a Python dict). -/
def metaGet (pairs : List (String × String)) (k : String) : Option String :=
  (pairs.reverse.find? (fun p => p.1 == k)).map (fun p => p.2)

/-- The per-line task parsing of `parse_tasks`: match the task regex, strip
the text, scan the metadata pairs, and build the task record.  `fresh_id`
is the `uuid4` generated when no `id` key is present; `none` models both
"no match" (line skipped) and a raised `ValueError` from `int(...)`. -/
def parse_task_line (fresh_id : String) (se : String) (line : String) : Option Task :=
  match line.data with
  | '-' :: ' ' :: '[' :: c :: ']' :: ' ' :: rest =>
    if c = ' ' || c = 'x' || c = 'X' then
      match lazySplit [] rest with
      | none => none
      | some (textRaw, metaOpt) =>
        let completed := c = 'x' || c = 'X'
        let text : String := ⟨py_strip textRaw⟩
        let meta := match metaOpt with
          | none => []
          | some m => scanMeta m
        let tid := (metaGet meta "id").getD fresh_id
        let colorRes : Option (Option Int) :=
          if PROJECT_SECTIONS.contains se then
            match metaGet meta "project" with
            | some v => (parse_py_int v).map some
            | none => some none
          else some none
        let oiRes : Option (Option Int) :=
          match metaGet meta "order_index" with
          | some v => (parse_py_int v).map some
          | none => some none
        match colorRes, oiRes with
        | some color, some oi =>
          some { id := tid, text := text, completed := completed,
                 created := metaGet meta "created",
                 updated := metaGet meta "updated",
                 in_progress := metaGet meta "in_progress",
                 completed_at := metaGet meta "completed_at",
                 blocked_at := metaGet meta "blocked_at",
                 history := metaGet meta "history",
                 assigned_project := metaGet meta "assigned",
                 order_index := oi, color_index := color }
        | _, _ => none
    else none
  | _ => none

/-! ## Project reordering (`reorder_project_tasks`) -/

/-- The section map, as the ordered association list the Python dict
iterates over. -/
abbrev Sections := List (String × List Task)

/-- First task with the given id in one section's task list. -/
def find_task_in (tasks : List Task) (task_id : String) : Option Task :=
  tasks.find? (fun t => t.id == task_id)

/-- First task with the given id, iterating sections in order (the
`for section, tasks in sections.items()` search loop). -/
def find_task : Sections → String → Option Task
  | [], _ => none
  | (_, ts) :: rest, task_id =>
    match find_task_in ts task_id with
    | some t => some t
    | none => find_task rest task_id

/-- The validation loop of `reorder_project_tasks`: each listed id must
resolve to a task already assigned to the project. -/
def validate_reorder (ss : Sections) (project_id : String) : List String → Except String Unit
  | [] => .ok ()
  | task_id :: rest =>
    match find_task ss task_id with
    | none => .error ("Task not found: " ++ task_id)
    | some t =>
      if t.assigned_project == some project_id then validate_reorder ss project_id rest
      else .error ("Task " ++ task_id ++ " is not assigned to project " ++ project_id)

/-- Apply `f` to the first task with the given id within one task list;
the flag reports whether it was found. -/
def update_first_in_tasks (task_id : String) (f : Task → Task) :
    List Task → Bool × List Task
  | [] => (false, [])
  | t :: ts =>
    if t.id == task_id then (true, f t :: ts)
    else
      let r := update_first_in_tasks task_id f ts
      (r.1, t :: r.2)

/-- Apply `f` to the first task with the given id across the sections
(mutating the task object found by the search loop). -/
def update_first_task (task_id : String) (f : Task → Task) : Sections → Sections
  | [] => []
  | (name, ts) :: rest =>
    let r := update_first_in_tasks task_id f ts
    if r.1 then (name, r.2) :: rest
    else (name, ts) :: update_first_task task_id f rest

/-- The `for i, task in enumerate(tasks_to_update): task["order_index"] = i`
loop, with `i` starting at `base`. -/
def apply_reorder (base : Nat) (ids : List String) (ss : Sections) : Sections :=
  match ids with
  | [] => ss
  | task_id :: rest =>
    apply_reorder (base + 1) rest
      (update_first_task task_id (fun t => { t with order_index := some (base : Int) }) ss)

/-- `reorder_project_tasks(project_id)` on a parsed section map: validate
every listed id, then set `order_index` to the 0-based list position.
`save_tasks` is called without touching any `updated` timestamp. -/
def reorder_project_tasks (ss : Sections) (project_id : String) (task_ids : List String) :
    Except String Sections :=
  if task_ids.isEmpty then .error "taskIds required"
  else
    match validate_reorder ss project_id task_ids with
    | .error e => .error e
    | .ok _ => .ok (apply_reorder 0 task_ids ss)

/-! ## Completion toggle (`toggle_complete`) -/

/-- The per-task body of `toggle_complete`: flip the checkbox, set/clear
`completed_at`, relocate projects between `PROJECTS` and
`COMPLETED PROJECTS`, append the matching `co@`/`op@` history event unless
the section is a research section, and set `updated`.  Returns the task's
new section and new state. -/
def toggle_complete_task (se : String) (t0 : Task) (now : String) : String × Task :=
  let t := { t0 with completed := !t0.completed }
  let t := if t.completed then { t with completed_at := some now }
           else { t with completed_at := none }
  let moved :=
    if se = "PROJECTS" && t.completed then
      let t := { t with completed_at := some now }
      let t := if RESEARCH_SECTIONS.contains se then t else append_history t "co" now
      ("COMPLETED PROJECTS", t)
    else if se = "COMPLETED PROJECTS" && !t.completed then
      let t := { t with completed_at := none }
      let t := if RESEARCH_SECTIONS.contains se then t else append_history t "op" now
      ("PROJECTS", t)
    else
      let t := if RESEARCH_SECTIONS.contains se then t
               else append_history t (if t.completed then "co" else "op") now
      (se, t)
  (moved.1, { moved.2 with updated := some now })

/-- Rewrite every task of every section. -/
def map_tasks (f : Task → Task) (ss : Sections) : Sections :=
  ss.map (fun p => (p.1, p.2.map f))

/-- All task ids of the section map, in iteration order. -/
def section_task_ids (ss : Sections) : List String :=
  (ss.map (fun p => p.2.map Task.id)).flatten

/-- 0-based position of the first occurrence of `x` in `l`. -/
def pos_in (x : String) : List String → Nat
  | [] => 0
  | y :: ys => if y = x then 0 else pos_in x ys + 1

/-- A span lies inside the queried window `[ws, we]` (boundaries inclusive)
and carries a legal status. -/
def span_in_window (ws we : Nat) (sp : Span) : Prop :=
  ws ≤ sp.start ∧ sp.start ≤ we ∧ ws ≤ sp.stop ∧ sp.stop ≤ we
  ∧ (sp.status = "in_progress" ∨ sp.status = "blocked")

/-! ## Round-trip layer: metadata pairs and well-formedness (`save_tasks`) -/

/-- A scanned `key:value` pair as produced for a serialized task: nonempty
word-character key, nonempty whitespace-free value. -/
def wf_pair (p : String × String) : Prop :=
  p.1.data ≠ [] ∧ (∀ c ∈ p.1.data, isWordChar c = true)
  ∧ p.2.data ≠ [] ∧ (∀ c ∈ p.2.data, pyIsSpace c = false)

/-- The characters of the space-separated `key:value` parts after the first. -/
def tail_chars (ps : List (String × String)) : List Char :=
  ps.flatMap (fun q => ' ' :: (q.1.data ++ ':' :: q.2.data))

/-- The characters of the space-intercalated `key:value` parts. -/
def pairs_chars : List (String × String) → List Char
  | [] => []
  | p :: ps => p.1.data ++ ':' :: (p.2.data ++ tail_chars ps)

/-- One `key:value` metadata part. -/
def part_of_pair (p : String × String) : String := p.1 ++ ":" ++ p.2

/-- The serialized characters between the task text and the line end:
the comment opener, the metadata, the comment closer. -/
def sepChars (md : List Char) : List Char :=
  ' ' :: '<' :: '!' :: '-' :: '-' :: ' ' :: (md ++ [' ', '-', '-', '>'])

/-- A metadata value that survives the round trip: nonempty and free of
(Python) whitespace. -/
def good_value (s : String) : Prop :=
  s.data ≠ [] ∧ ∀ c ∈ s.data, pyIsSpace c = false

/-- An optional field value that survives the round trip: absent, or a good
value (in particular never an empty string, which serializes to nothing). -/
def good_opt_value : Option String → Prop
  | none => True
  | some v => good_value v

/-- The metadata of `meta_parts` as `(key, value)` pairs. -/
def meta_pairs (se : String) (t : Task) : List (String × String) :=
  [("id", t.id)]
  ++ (if PROJECT_SECTIONS.contains se && int_truthy t.color_index then
        [("project", py_str_int (t.color_index.getD 0))]
      else if truthy t.assigned_project then
        [("assigned", t.assigned_project.getD "")]
      else [])
  ++ (if truthy t.created then [("created", t.created.getD "")] else [])
  ++ (if truthy t.updated then [("updated", t.updated.getD "")] else [])
  ++ (if truthy t.in_progress then [("in_progress", t.in_progress.getD "")] else [])
  ++ (if truthy t.completed_at then [("completed_at", t.completed_at.getD "")] else [])
  ++ (if truthy t.blocked_at then [("blocked_at", t.blocked_at.getD "")] else [])
  ++ (if truthy t.history then [("history", t.history.getD "")] else [])
  ++ (match t.order_index with
      | some oi => [("order_index", py_str_int oi)]
      | none => [])

/-- Conditions under which a task's serialized line parses back to the same
task: id and present field values nonempty and whitespace-free; the text
single-line, strip-invariant and free of the comment opener; the color index
consistent with the section (only project sections serialize and parse it, and
a truthy color suppresses the assigned key). -/
def round_trip_safe (se : String) (t : Task) : Prop :=
  good_value t.id
  ∧ py_strip t.text.data = t.text.data
  ∧ (∀ c ∈ t.text.data, c ≠ '\n')
  ∧ containsSub ['<', '!', '-', '-'] t.text.data = false
  ∧ good_opt_value t.created
  ∧ good_opt_value t.updated
  ∧ good_opt_value t.in_progress
  ∧ good_opt_value t.completed_at
  ∧ good_opt_value t.blocked_at
  ∧ good_opt_value t.history
  ∧ good_opt_value t.assigned_project
  ∧ (PROJECT_SECTIONS.contains se = true →
       int_truthy t.color_index = true ∧ t.assigned_project = none)
  ∧ (PROJECT_SECTIONS.contains se = false → t.color_index = none)

instance good_value_decidable (s : String) : Decidable (good_value s) :=
  inferInstanceAs (Decidable (s.data ≠ [] ∧ ∀ c ∈ s.data, pyIsSpace c = false))

instance good_opt_value_decidable : (o : Option String) → Decidable (good_opt_value o)
  | none => .isTrue trivial
  | some v => inferInstanceAs (Decidable (good_value v))

instance round_trip_safe_decidable (se : String) (t : Task) :
    Decidable (round_trip_safe se t) :=
  inferInstanceAs (Decidable (good_value t.id
    ∧ py_strip t.text.data = t.text.data
    ∧ (∀ c ∈ t.text.data, c ≠ '\n')
    ∧ containsSub ['<', '!', '-', '-'] t.text.data = false
    ∧ good_opt_value t.created
    ∧ good_opt_value t.updated
    ∧ good_opt_value t.in_progress
    ∧ good_opt_value t.completed_at
    ∧ good_opt_value t.blocked_at
    ∧ good_opt_value t.history
    ∧ good_opt_value t.assigned_project
    ∧ (PROJECT_SECTIONS.contains se = true →
         int_truthy t.color_index = true ∧ t.assigned_project = none)
    ∧ (PROJECT_SECTIONS.contains se = false → t.color_index = none)))

/-! ## Post-parse passes of `parse_tasks`: color and assignment migrations -/

/-- Replace the task list stored under a section name (in-place dict update,
order preserved); identity when the key is absent (the source only writes to
keys it has just looked up). -/
def set_section (sn : String) (ts : List Task) : Sections → Sections
  | [] => []
  | (n, l) :: rest => if n = sn then (n, ts) :: rest else (n, l) :: set_section sn ts rest

/-- `all_used_colors` of `get_next_project_color`: every truthy color of a
task in a project section (as a list; only membership is consulted). -/
def used_colors (ss : Sections) : List Int :=
  PROJECT_SECTIONS.flatMap (fun sn =>
    ((ss.lookup sn).getD []).filterMap (fun t =>
      if int_truthy t.color_index then t.color_index else none))

/-- `active_color_counts` of `get_next_project_color`, as the multiset (list)
of truthy colors of the active "PROJECTS" section; the dict's count of a color
is this list's count, and its key set is the set of members. -/
def active_colors (ss : Sections) : List Int :=
  ((ss.lookup "PROJECTS").getD []).filterMap (fun t =>
    if int_truthy t.color_index then t.color_index else none)

/-- `for i in range(1, 17): if p(i): return i`. -/
def first_in_range (p : Int → Bool) : Option Int :=
  (List.range 16).findSome? (fun k =>
    if p ((k : Int) + 1) then some ((k : Int) + 1) else none)

/-- `get_next_project_color`: first unclaimed color in 1..16, else first color
unused by active projects, else the first color whose active count is minimal,
else 1.  (The inner `none` arm of `min?` is unreachable: priority 2 can only
fail when every color 1..16 is an active key, so the count dict is nonempty;
Python would raise there.) -/
def get_next_project_color (ss : Sections) : Int :=
  let used := used_colors ss
  let active := active_colors ss
  match first_in_range (fun i => !used.contains i) with
  | some i => i
  | none =>
    match first_in_range (fun i => !active.contains i) with
    | some i => i
    | none =>
      match (active.dedup.map (fun c => active.count c)).min? with
      | some m =>
        match first_in_range (fun i => active.count i == m) with
        | some i => i
        | none => 1
      | none => 1

/-- The inner loop of `migrate_project_colors` over one project section's
tasks (`done` is the already-visited prefix): a parsed task dict carries the
`color_index` key exactly when the model field is `some`, so the source's
key-absence test is `color_index = none`; each assignment updates the
sections map seen by subsequent `get_next_project_color` calls. -/
def migrate_colors_tasks (sn : String) : List Task → List Task → Sections → Sections
  | _, [], ss => ss
  | done, t :: rest, ss =>
    if t.color_index = none then
      let t2 := { t with color_index := some (get_next_project_color ss) }
      migrate_colors_tasks sn (done ++ [t2]) rest (set_section sn (done ++ t2 :: rest) ss)
    else migrate_colors_tasks sn (done ++ [t]) rest ss

/-- `migrate_project_colors`: assign a color to every project-section task
lacking one (the `needs_save` re-write of the file does not change the dict). -/
def migrate_project_colors (ss : Sections) : Sections :=
  PROJECT_SECTIONS.foldl
    (fun acc sn =>
      match acc.lookup sn with
      | some ts => migrate_colors_tasks sn [] ts acc
      | none => acc)
    ss

/-- `valid_project_ids` of `migrate_orphaned_assignments`. -/
def valid_project_ids (ss : Sections) : List String :=
  PROJECT_SECTIONS.flatMap (fun sn => ((ss.lookup sn).getD []).map (fun t => t.id))

/-- The `project_text_to_id` dict of `migrate_orphaned_assignments`, as its
insertion-ordered binding list (read through `dict_items`). -/
def project_text_to_id (ss : Sections) : List (String × String) :=
  PROJECT_SECTIONS.flatMap (fun sn => ((ss.lookup sn).getD []).map (fun t => (t.text, t.id)))

/-- Worker for `dict_items` (fuel bounds the list length). -/
def dict_items_aux : Nat → List (String × String) → List (String × String)
  | 0, _ => []
  | _, [] => []
  | fuel + 1, (k, v) :: rest =>
    (k, (metaGet ((k, v) :: rest) k).getD v)
      :: dict_items_aux fuel (rest.filter (fun p => !(p.1 == k)))

/-- The `.items()` view of a dict built by repeated assignment from a binding
list: keys in first-insertion order, each with its last-assigned value. -/
def dict_items (l : List (String × String)) : List (String × String) :=
  dict_items_aux l.length l

/-- The `old_to_new_id` dict: for every project text and project section, the
uuid5 of `"SECTION:text"` mapped to the current id when they differ.  `u5`
injects `uuid.uuid5(uuid.NAMESPACE_DNS, ·)` (an opaque hash); lookups read the
binding list through `metaGet` (last assignment wins, as for a dict). -/
def old_to_new_id (u5 : String → String) (ss : Sections) : List (String × String) :=
  (dict_items (project_text_to_id ss)).flatMap (fun p =>
    PROJECT_SECTIONS.filterMap (fun sn =>
      let old_id := u5 (sn ++ ":" ++ p.1)
      if old_id ≠ p.2 then some (old_id, p.2) else none))

/-- The per-task body of `migrate_orphaned_assignments`: a truthy assignment
not in `valid` is rewritten when `old_to_new_id` maps it, else kept. -/
def fix_orphan (valid : List String) (o2n : List (String × String)) (t : Task) : Task :=
  if truthy t.assigned_project && !(valid.contains (t.assigned_project.getD "")) then
    match metaGet o2n (t.assigned_project.getD "") with
    | some nid => { t with assigned_project := some nid }
    | none => t
  else t

/-- `migrate_orphaned_assignments`: fix orphaned assignments in every
non-project section (the `needs_save` re-write does not change the dict). -/
def migrate_orphaned_assignments (u5 : String → String) (ss : Sections) : Sections :=
  let valid := valid_project_ids ss
  let o2n := old_to_new_id u5 ss
  ss.map (fun s =>
    if PROJECT_SECTIONS.contains s.1 then s
    else (s.1, s.2.map (fix_orphan valid o2n)))

/-- The per-section composition of `save_tasks` and the line loop of
`parse_tasks`: `save_tasks` writes each section's tasks as consecutive task
lines under that section's `## ` header, and the line loop assigns every
matched task line to the current section, so each section's parsed task list
is the per-line parse of its serialized lines (headers, blank lines and the
section ordering produce no tasks and change no task's fields; `fresh` stands
for the uuid4 drawn when a line carries no id key). -/
def parse_saved_sections (fresh : String) (ss : Sections) : Sections :=
  ss.map (fun s =>
    (s.1, s.2.filterMap (fun t => parse_task_line fresh s.1 (serialize_task_line s.1 t))))

/-- The full save-then-parse pipeline on a sections map, including the two
post-parse passes `parse_tasks` runs before returning (lines 399-402). -/
def parse_tasks_model (fresh : String) (u5 : String → String) (ss : Sections) : Sections :=
  migrate_orphaned_assignments u5 (migrate_project_colors (parse_saved_sections fresh ss))

/-! ## Helper lemmas -/

theorem ACTIVE_STATUSES_cases (pfx st : String) (h : ACTIVE_STATUSES pfx = some st) :
    st = "in_progress" ∨ st = "blocked" := by
  unfold ACTIVE_STATUSES at h
  split_ifs at h <;> simp_all

theorem raw_spans_status (today : Nat) (l : List (String × Nat)) (sp : Span)
    (h : sp ∈ raw_spans today l) :
    sp.status = "in_progress" ∨ sp.status = "blocked" := by
  induction l with
  | nil => simp [raw_spans] at h
  | cons hd tl ih =>
    obtain ⟨pfx, d⟩ := hd
    unfold raw_spans at h
    cases hA : ACTIVE_STATUSES pfx with
    | none => rw [hA] at h; exact ih h
    | some st =>
      rw [hA] at h
      simp only [List.mem_cons] at h
      rcases h with h | h
      · subst h; exact ACTIVE_STATUSES_cases pfx st hA
      · exact ih h

theorem clip_spans_bounds (ws we : Nat) (l : List Span) (sp : Span)
    (hwe : ws ≤ we) (h : sp ∈ clip_spans ws we l) :
    ws ≤ sp.start ∧ sp.start ≤ we ∧ ws ≤ sp.stop ∧ sp.stop ≤ we
    ∧ ∃ q ∈ l, sp.status = q.status := by
  unfold clip_spans at h
  rw [List.mem_filterMap] at h
  obtain ⟨q, hq, hf⟩ := h
  by_cases hc : (q.stop < ws || q.start > we) = true
  · simp [hc] at hf
  · simp only [hc, Bool.false_eq_true, if_neg, ite_false] at hf
    simp only [Bool.or_eq_true, decide_eq_true_eq, not_or] at hc
    rcases Option.some_inj.mp hf with rfl
    refine ⟨?_, ?_, ?_, ?_, ⟨q, hq, rfl⟩⟩ <;> simp <;> omega

theorem spans_of_entries_bounds (entries : List String) (today ws we : Nat) (sp : Span)
    (hwe : ws ≤ we) (h : sp ∈ spans_of_entries entries today ws we) :
    span_in_window ws we sp := by
  unfold spans_of_entries at h
  obtain ⟨h1, h2, h3, h4, q, hq, hst⟩ := clip_spans_bounds ws we _ sp hwe h
  exact ⟨h1, h2, h3, h4, hst ▸ raw_spans_status today _ q hq⟩

theorem window_clip_singleton (s e ws we : Nat) (st : String) (sp : Span)
    (hwe : ws ≤ we)
    (h : sp ∈ (if (decide (e < ws) || decide (s > we)) = true then ([] : List Span)
               else [⟨max s ws, min e we, st⟩])) :
    ws ≤ sp.start ∧ sp.start ≤ we ∧ ws ≤ sp.stop ∧ sp.stop ≤ we ∧ sp.status = st := by
  split at h
  · simp at h
  · simp only [List.mem_singleton] at h
    subst h
    rename_i hg
    simp only [Bool.or_eq_true, decide_eq_true_eq, not_or] at hg
    refine ⟨?_, ?_, ?_, ?_, rfl⟩ <;> simp <;> omega

theorem window_day_singleton (d ws we : Nat) (st : String) (sp : Span)
    (h : sp ∈ (if (decide (d < ws) || decide (d > we)) = true then ([] : List Span)
               else [⟨d, d, st⟩])) :
    ws ≤ sp.start ∧ sp.start ≤ we ∧ ws ≤ sp.stop ∧ sp.stop ≤ we ∧ sp.status = st := by
  split at h
  · simp at h
  · simp only [List.mem_singleton] at h
    subst h
    rename_i hg
    simp only [Bool.or_eq_true, decide_eq_true_eq, not_or] at hg
    refine ⟨?_, ?_, ?_, ?_, rfl⟩ <;> simp <;> omega

theorem compute_simplified_span_bounds (t : Task) (today ws we : Nat) (sec : String)
    (sp : Span) (hwe : ws ≤ we)
    (h : sp ∈ compute_simplified_span t today ws we sec) :
    span_in_window ws we sp := by
  unfold compute_simplified_span at h
  split at h
  · simp at h
  · split at h
    · simp at h
    · obtain ⟨a, b, c, d, e⟩ := window_clip_singleton _ _ ws we _ sp hwe h
      exact ⟨a, b, c, d, Or.inl e⟩

theorem timestamp_only_bounds (t : Task) (today ws we : Nat) (sp : Span)
    (hwe : ws ≤ we) (h : sp ∈ spans_from_timestamp_only t today ws we) :
    span_in_window ws we sp := by
  unfold spans_from_timestamp_only at h
  split at h
  · split at h
    · simp at h
    · obtain ⟨a, b, c, d, e⟩ := window_day_singleton _ ws we _ sp h
      exact ⟨a, b, c, d, Or.inl e⟩
  · split at h
    · split at h
      · simp at h
      · obtain ⟨a, b, c, d, e⟩ := window_clip_singleton _ _ ws we _ sp hwe h
        exact ⟨a, b, c, d, Or.inr e⟩
    · simp at h

theorem terminal_span_bounds (today ws we : Nat) (l : List (String × Nat)) (sp : Span)
    (hwe : ws ≤ we) (h : sp ∈ terminal_span_of_entries today ws we l) :
    span_in_window ws we sp := by
  induction l with
  | nil => simp [terminal_span_of_entries] at h
  | cons hd tl ih =>
    obtain ⟨pfx, d⟩ := hd
    unfold terminal_span_of_entries at h
    split at h
    · obtain ⟨a, b, c, d, e⟩ := window_day_singleton _ ws we _ sp h
      exact ⟨a, b, c, d, Or.inl e⟩
    · split at h
      · obtain ⟨a, b, c, d, e⟩ := window_clip_singleton _ _ ws we _ sp hwe h
        exact ⟨a, b, c, d, Or.inr e⟩
      · exact ih h

theorem update_first_in_tasks_fst (task_id : String) (f : Task → Task) (ts : List Task) :
    (update_first_in_tasks task_id f ts).1 = ts.any (fun t => t.id == task_id) := by
  induction ts with
  | nil => rfl
  | cons t ts ih =>
    unfold update_first_in_tasks
    by_cases h : (t.id == task_id) = true <;> simp_all

theorem map_if_id (task_id : String) (f : Task → Task) (ts : List Task)
    (h : ∀ u ∈ ts, u.id ≠ task_id) :
    ts.map (fun u => if u.id = task_id then f u else u) = ts := by
  induction ts with
  | nil => rfl
  | cons t ts ih =>
    simp only [List.map_cons]
    rw [if_neg (h t (by simp)), ih (fun u hu => h u (by simp [hu]))]

theorem update_first_in_tasks_eq (task_id : String) (f : Task → Task) (ts : List Task)
    (h : (ts.map Task.id).Nodup) :
    (update_first_in_tasks task_id f ts).2
      = ts.map (fun t => if t.id = task_id then f t else t) := by
  induction ts with
  | nil => rfl
  | cons t ts ih =>
    simp only [List.map_cons, List.nodup_cons] at h
    unfold update_first_in_tasks
    by_cases hc : (t.id == task_id) = true
    · have heq : t.id = task_id := by simpa using hc
      rw [if_pos hc]
      dsimp only
      simp only [List.map_cons, if_pos heq]
      rw [map_if_id task_id f ts
          (fun u hu hid => h.1 (List.mem_map.mpr ⟨u, hu, hid.trans heq.symm⟩))]
    · have hne : t.id ≠ task_id := by simpa using hc
      rw [if_neg hc]
      dsimp only
      simp only [List.map_cons, if_neg hne]
      rw [ih h.2]


theorem map_tasks_id_of_not_mem (task_id : String) (f : Task → Task) (ss : Sections)
    (h : task_id ∉ section_task_ids ss) :
    map_tasks (fun t => if t.id = task_id then f t else t) ss = ss := by
  induction ss with
  | nil => rfl
  | cons p rest ih =>
    obtain ⟨name, ts⟩ := p
    simp only [section_task_ids, List.map_cons, List.flatten_cons, List.mem_append] at h
    push_neg at h
    simp only [map_tasks, List.map_cons]
    rw [map_if_id task_id f ts (fun u hu hid => h.1 (List.mem_map.mpr ⟨u, hu, hid⟩))]
    have := ih (by simpa [section_task_ids] using h.2)
    simp only [map_tasks] at this
    rw [this]

theorem update_first_task_eq (task_id : String) (f : Task → Task) (ss : Sections)
    (h : (section_task_ids ss).Nodup) :
    update_first_task task_id f ss
      = map_tasks (fun t => if t.id = task_id then f t else t) ss := by
  induction ss with
  | nil => rfl
  | cons p rest ih =>
    obtain ⟨name, ts⟩ := p
    simp only [section_task_ids, List.map_cons, List.flatten_cons] at h
    rw [List.nodup_append] at h
    obtain ⟨hts, hrest, hdisj⟩ := h
    unfold update_first_task
    simp only [map_tasks, List.map_cons]
    by_cases hf : (update_first_in_tasks task_id f ts).1 = true
    · rw [if_pos hf]
      rw [update_first_in_tasks_fst] at hf
      simp only [List.any_eq_true, beq_iff_eq] at hf
      obtain ⟨u, hu, hid⟩ := hf
      have hmem : task_id ∈ ts.map Task.id := List.mem_map.mpr ⟨u, hu, hid⟩
      have hnot : task_id ∉ section_task_ids rest := fun hc => hdisj hmem hc
      rw [update_first_in_tasks_eq task_id f ts hts]
      have := map_tasks_id_of_not_mem task_id f rest hnot
      simp only [map_tasks] at this
      rw [this]
    · rw [if_neg hf]
      rw [update_first_in_tasks_fst] at hf
      simp only [List.any_eq_true, beq_iff_eq, not_exists, not_and] at hf
      push_neg at hf
      rw [map_if_id task_id f ts (fun u hu => hf u hu)]
      have := ih hrest
      simp only [map_tasks] at this
      rw [this]


theorem map_tasks_map_tasks (f g : Task → Task) (ss : Sections) :
    map_tasks g (map_tasks f ss) = map_tasks (fun t => g (f t)) ss := by
  unfold map_tasks
  rw [List.map_map]
  apply List.map_congr_left
  intro p _
  simp [List.map_map]

theorem section_task_ids_map_tasks (f : Task → Task) (hf : ∀ t, (f t).id = t.id)
    (ss : Sections) :
    section_task_ids (map_tasks f ss) = section_task_ids ss := by
  unfold section_task_ids map_tasks
  rw [List.map_map]
  congr 1
  apply List.map_congr_left
  intro p _
  simp only [Function.comp]
  rw [List.map_map]
  apply List.map_congr_left
  intro t _
  exact hf t

theorem apply_reorder_eq (ids : List String) (base : Nat) (ss : Sections)
    (h1 : ids.Nodup) (h2 : (section_task_ids ss).Nodup) :
    apply_reorder base ids ss
      = map_tasks (fun t => if t.id ∈ ids
          then { t with order_index := some ((base + pos_in t.id ids : Nat) : Int) }
          else t) ss := by
  induction ids generalizing base ss with
  | nil => simp [apply_reorder, map_tasks]
  | cons id0 rest ih =>
    simp only [List.nodup_cons] at h1
    unfold apply_reorder
    rw [update_first_task_eq id0 _ ss h2]
    rw [ih (base + 1)
        (map_tasks (fun t => if t.id = id0
          then { t with order_index := some ((base : Nat) : Int) } else t) ss)
        h1.2
        (by rw [section_task_ids_map_tasks _ (fun t => by split_ifs <;> rfl) ss]; exact h2)]
    rw [map_tasks_map_tasks]
    congr 1
    funext t
    dsimp only
    by_cases he : t.id = id0
    · have hnr : t.id ∉ rest := by rw [he]; exact h1.1
      rw [if_pos he]
      have hid : ({ t with order_index := some ((base : Nat) : Int) } : Task).id = t.id := rfl
      rw [if_neg (by rw [hid]; exact hnr)]
      rw [if_pos (show t.id ∈ id0 :: rest by simp [he])]
      have hp : pos_in t.id (id0 :: rest) = 0 := by simp [pos_in, he]
      rw [hp]
      norm_num
    · rw [if_neg he]
      by_cases hr : t.id ∈ rest
      · rw [if_pos hr, if_pos (show t.id ∈ id0 :: rest by simp [hr])]
        have hp : pos_in t.id (id0 :: rest) = pos_in t.id rest + 1 := by
          have : id0 ≠ t.id := fun hh => he hh.symm
          simp [pos_in, this]
        rw [hp]
        congr 2
        omega
      · rw [if_neg hr, if_neg (show t.id ∉ id0 :: rest by simp [he, hr])]


theorem validate_reorder_of_forall (ss : Sections) (pid : String) (ids : List String)
    (h : ∀ i ∈ ids, ∃ t, find_task ss i = some t ∧ t.assigned_project = some pid) :
    validate_reorder ss pid ids = .ok () := by
  induction ids with
  | nil => rfl
  | cons i rest ih =>
    obtain ⟨t, hf, ha⟩ := h i (by simp)
    unfold validate_reorder
    rw [hf]
    dsimp only
    rw [if_pos (by simp [ha])]
    exact ih (fun j hj => h j (by simp [hj]))

/-! ## Claims -/

/-- C1 (counterexample): a same-section "transition" through the engine is
NOT always a no-op — calling `handle_section_transition(task, S, S)` with
`S = "IN PROGRESS TODAY"` appends an `ip@` history event and sets
`in_progress`, although the claim says it must append no event and leave
every temporal field unchanged. -/
theorem C1_counterexample :
    (handle_section_transition { id := "t1", text := "a", completed := false }
        "IN PROGRESS TODAY" "IN PROGRESS TODAY" "2026-02-10T09:00:00").history
      = some "ip@2026-02-10T09:00:00"
    ∧ (handle_section_transition { id := "t1", text := "a", completed := false }
        "IN PROGRESS TODAY" "IN PROGRESS TODAY" "2026-02-10T09:00:00").in_progress
      = some "2026-02-10T09:00:00"
    ∧ ({ id := "t1", text := "a", completed := false } : Task).history = none
    ∧ ({ id := "t1", text := "a", completed := false } : Task).in_progress = none := by
  decide

/-- C1 (amended): a same-section call `handle_section_transition(task, S, S)`
is a no-op exactly in the cases the engine never acts: when `S` is a
research (exempt) section, or when `S` carries no lifecycle role (it is not
an active, deactivating, blocked, or done section).  For a same-section
call on a role-carrying section the engine behaves like a normal transition
into that section and appends a history event, so callers must not invoke
it for same-section moves. -/
theorem C1_theorem (t : Task) (se now : String)
    (h : se ∈ RESEARCH_SECTIONS
      ∨ (se ∉ IN_PROGRESS_SECTIONS
         ∧ se ∉ CLEARS_IN_PROGRESS_SECTIONS
         ∧ se ∉ BLOCKED_SECTIONS
         ∧ is_done_section se = false)) :
    handle_section_transition t se se now = t := by
  unfold handle_section_transition
  rcases h with h | ⟨h1, h2, h3, h4⟩
  · simp [h]
  · simp [h1, h2, h3, h4]

/-- C1 (witness): the amended no-op statement applied to the role-less
section `PROJECTS` and the research section `RESEARCH DONE`. -/
theorem C1_witness :
    handle_section_transition { id := "t1", text := "a", completed := false }
        "PROJECTS" "PROJECTS" "2026-02-10T09:00:00"
      = { id := "t1", text := "a", completed := false }
    ∧ handle_section_transition { id := "t1", text := "a", completed := false }
        "RESEARCH DONE" "RESEARCH DONE" "2026-02-10T09:00:00"
      = { id := "t1", text := "a", completed := false } :=
  ⟨C1_theorem _ "PROJECTS" "2026-02-10T09:00:00"
      (Or.inr ⟨by decide, by decide, by decide, by decide⟩),
   C1_theorem _ "RESEARCH DONE" "2026-02-10T09:00:00" (Or.inl (by decide))⟩

/-- C2: every transition of the lifecycle engine preserves the
mutual-exclusion invariant: if at most one of `in_progress` and
`blocked_at` is non-null before `handle_section_transition`, the same holds
after it, for every source and target section. -/
theorem C2_theorem (t : Task) (src tgt now : String)
    (h : ¬(t.in_progress.isSome ∧ t.blocked_at.isSome)) :
    ¬((handle_section_transition t src tgt now).in_progress.isSome
      ∧ (handle_section_transition t src tgt now).blocked_at.isSome) := by
  unfold handle_section_transition append_history
  split_ifs <;> simp_all

/-- C2 (witness): the invariant preservation applied to a blocked task
moved to the active section. -/
theorem C2_witness :
    ¬((handle_section_transition
        { id := "t2", text := "a", completed := false,
          blocked_at := some "2026-02-09T08:00:00" }
        "BLOCKED" "IN PROGRESS TODAY" "2026-02-10T09:00:00").in_progress.isSome
      ∧ (handle_section_transition
        { id := "t2", text := "a", completed := false,
          blocked_at := some "2026-02-09T08:00:00" }
        "BLOCKED" "IN PROGRESS TODAY" "2026-02-10T09:00:00").blocked_at.isSome) :=
  C2_theorem _ "BLOCKED" "IN PROGRESS TODAY" "2026-02-10T09:00:00" (by decide)

/-- C3 (counterexample): moving a task INTO the active section via
`handle_section_transition` does not always clear `blocked_at` nor append
an `ip@` event: when the source section is a research section the engine
short-circuits and does nothing, contradicting the claim as stated (which
quantifies over every task moved into an active-role section). -/
theorem C3_counterexample :
    (handle_section_transition
        { id := "t3", text := "a", completed := false,
          blocked_at := some "2026-02-09T08:00:00" }
        "RESEARCH IN PROGRESS" "IN PROGRESS TODAY" "2026-02-10T09:00:00").blocked_at
      = some "2026-02-09T08:00:00"
    ∧ (handle_section_transition
        { id := "t3", text := "a", completed := false,
          blocked_at := some "2026-02-09T08:00:00" }
        "RESEARCH IN PROGRESS" "IN PROGRESS TODAY" "2026-02-10T09:00:00").history
      = none := by
  decide

/-- C3 (amended): provided the source section is not a research (exempt)
section, moving a task into the active section `IN PROGRESS TODAY`
preserves a truthy `in_progress` unchanged, sets it to `now` otherwise,
clears `blocked_at`, and appends exactly one `ip@now` event to the
history. -/
theorem C3_theorem (t : Task) (src now : String)
    (h : src ∉ RESEARCH_SECTIONS) :
    ((truthy t.in_progress = true →
        (handle_section_transition t src "IN PROGRESS TODAY" now).in_progress
          = t.in_progress)
     ∧ (truthy t.in_progress = false →
        (handle_section_transition t src "IN PROGRESS TODAY" now).in_progress
          = some now)
     ∧ (handle_section_transition t src "IN PROGRESS TODAY" now).blocked_at = none
     ∧ (handle_section_transition t src "IN PROGRESS TODAY" now).history
        = some (history_with t.history ("ip@" ++ now))) := by
  unfold handle_section_transition append_history
  have hm : "IN PROGRESS TODAY" ∈ IN_PROGRESS_SECTIONS := by decide
  simp only [h]
  split_ifs <;> simp_all

/-- C3 (witness): the amended active-target rule applied to a task with an
existing activation time and a stale `blocked_at`, moved from a weekly todo
section. -/
theorem C3_witness :
    (handle_section_transition
        { id := "t3w", text := "a", completed := false,
          in_progress := some "2026-02-08T09:00:00",
          blocked_at := some "2026-02-09T08:00:00",
          history := some "ip@2026-02-08T09:00:00" }
        "TODO THIS WEEK" "IN PROGRESS TODAY" "2026-02-10T09:00:00").in_progress
      = some "2026-02-08T09:00:00"
    ∧ (handle_section_transition
        { id := "t3w", text := "a", completed := false,
          in_progress := some "2026-02-08T09:00:00",
          blocked_at := some "2026-02-09T08:00:00",
          history := some "ip@2026-02-08T09:00:00" }
        "TODO THIS WEEK" "IN PROGRESS TODAY" "2026-02-10T09:00:00").blocked_at = none
    ∧ (handle_section_transition
        { id := "t3w", text := "a", completed := false,
          in_progress := some "2026-02-08T09:00:00",
          blocked_at := some "2026-02-09T08:00:00",
          history := some "ip@2026-02-08T09:00:00" }
        "TODO THIS WEEK" "IN PROGRESS TODAY" "2026-02-10T09:00:00").history
      = some "ip@2026-02-08T09:00:00|ip@2026-02-10T09:00:00" := by
  have h := C3_theorem
    { id := "t3w", text := "a", completed := false,
      in_progress := some "2026-02-08T09:00:00",
      blocked_at := some "2026-02-09T08:00:00",
      history := some "ip@2026-02-08T09:00:00" }
    "TODO THIS WEEK" "2026-02-10T09:00:00" (by decide)
  exact ⟨(h.1 (by decide)).trans rfl, h.2.2.1, h.2.2.2.trans (by decide)⟩

/-- C4: the exempt-source short circuit — when the source section is a
research section, `handle_section_transition` returns the task completely
unchanged (no timestamp mutation, no history append), regardless of the
target section. -/
theorem C4_theorem (t : Task) (src tgt now : String)
    (h : src ∈ RESEARCH_SECTIONS) :
    handle_section_transition t src tgt now = t := by
  unfold handle_section_transition
  simp [h]

/-- C4 (witness): the exempt-source rule applied to a research task moved
into a done section. -/
theorem C4_witness :
    handle_section_transition
        { id := "t4", text := "a", completed := false,
          in_progress := some "2026-02-08T09:00:00" }
        "RESEARCH DONE" "DONE THIS WEEK" "2026-02-10T09:00:00"
      = { id := "t4", text := "a", completed := false,
          in_progress := some "2026-02-08T09:00:00" } :=
  C4_theorem _ "RESEARCH DONE" "DONE THIS WEEK" "2026-02-10T09:00:00" (by decide)

/-- C5: `is_done_section` returns true exactly for the static
`DONE_SECTIONS` list, names starting with `"DONE Q"`, and names starting
with `"DONE 20"`; in particular it rejects `"RESEARCH DONE"`, names that
contain the done prefixes only as interior substrings, and
differently-cased spellings. -/
theorem C5_theorem :
    (∀ name, is_done_section name = true ↔
      (name ∈ DONE_SECTIONS ∨ "DONE Q".data <+: name.data ∨ "DONE 20".data <+: name.data))
    ∧ is_done_section "RESEARCH DONE" = false
    ∧ is_done_section "THE DONE Q1 2026 LIST" = false
    ∧ is_done_section "OLD DONE 2025" = false
    ∧ is_done_section "done this week" = false
    ∧ is_done_section "Done Q1 2026" = false := by
  refine ⟨fun name => ?_, by decide, by decide, by decide, by decide, by decide⟩
  unfold is_done_section py_startswith
  split_ifs with h1 h2 h3 <;> simp_all

/-- C6 (counterexample): a span emitted by the timeline builder need not
satisfy `start ≤ end`: a history whose event dates are out of order
produces a span whose clipped start lies after its clipped end, so the
claimed chain `week_start ≤ start ≤ end ≤ week_end` fails. -/
theorem C6_counterexample :
    timeline_spans_for_task
        { id := "t6", text := "a", completed := false,
          history := some "ip@2026-02-12T09:00:00|op@2026-02-10T09:00:00" }
        "TODO THIS WEEK" 20260210 20260208 20260214
      = [⟨20260212, 20260210, "in_progress"⟩]
    ∧ ¬((20260212 : Nat) ≤ 20260210) := by
  decide

/-- C6 (amended): every span emitted by the per-task timeline computation
for a window with `week_start ≤ week_end` has both its start and its end
inside `[week_start, week_end]` (dates exactly on a boundary are kept, and
spans entirely outside the window are discarded rather than emitted), and
its status is `"in_progress"` or `"blocked"`, across all five
span-computation paths; the stronger chain `start ≤ end` additionally
requires the underlying dates to be chronologically ordered, which
out-of-order history entries can violate. -/
theorem C6_theorem (t : Task) (section_name : String) (today ws we : Nat) (sp : Span)
    (hwe : ws ≤ we) (h : sp ∈ timeline_spans_for_task t section_name today ws we) :
    span_in_window ws we sp := by
  unfold timeline_spans_for_task at h
  split_ifs at h with h1 h2 h3 h4 h5 h6
  · change sp ∈ (if ((compute_spans_from_history (t.history.getD "") today ws we).isEmpty
        && !truthy t.in_progress) = true
      then spans_from_terminal_history t today ws we
      else compute_spans_from_history (t.history.getD "") today ws we) at h
    split at h
    · unfold spans_from_terminal_history at h
      exact terminal_span_bounds today ws we _ sp hwe h
    · unfold compute_spans_from_history at h
      exact spans_of_entries_bounds _ today ws we sp hwe h
  · exact compute_simplified_span_bounds t today ws we section_name sp hwe h
  · exact timestamp_only_bounds t today ws we sp hwe h
  all_goals
    first
      | (simp only [List.mem_singleton] at h
         subst h
         simp only [Bool.and_eq_true, decide_eq_true_eq] at h5
         exact ⟨by simp; omega, by simp; omega, by simp; omega, by simp; omega, by simp⟩)
      | simp at h

/-- C6 (witness): the window/status bound applied to the first span of a
task with an ordinary `ip@ … bl@ …` history in the queried week. -/
theorem C6_witness :
    span_in_window 20260208 20260214 ⟨20260210, 20260212, "in_progress"⟩ :=
  C6_theorem
    { id := "w6", text := "a", completed := false,
      history := some "ip@2026-02-10T09:00:00|bl@2026-02-12T14:00:00" }
    "BLOCKED" 20260215 20260208 20260214 _ (by decide) (by decide)

/-- C7: a malformed history entry (no `"@"` separator or an unparsable
timestamp, i.e. `parse_entry` yields `none`) interleaved anywhere between
the other entries of a history string is skipped: the computed spans equal
those of the same history without the malformed entry.  The computation is
a total function — no error is raised or surfaced. -/
theorem C7_theorem (s : String) (today ws we : Nat) (pre post : List String) (m : String)
    (hsplit : history_entries s = pre ++ m :: post)
    (hm : parse_entry m = none) :
    compute_spans_from_history s today ws we = spans_of_entries (pre ++ post) today ws we := by
  unfold compute_spans_from_history
  rw [hsplit]
  unfold spans_of_entries parse_entries
  rw [List.filterMap_append, List.filterMap_append, List.filterMap_cons_none hm]

/-- C7 (witness): a garbage entry between two valid entries is dropped and
the two valid entries still produce their span. -/
theorem C7_witness :
    compute_spans_from_history "ip@2026-02-10T09:00:00|garbage|co@2026-02-12T10:00:00"
        20260215 20260208 20260214
      = spans_of_entries (["ip@2026-02-10T09:00:00"] ++ ["co@2026-02-12T10:00:00"])
          20260215 20260208 20260214
    ∧ spans_of_entries (["ip@2026-02-10T09:00:00"] ++ ["co@2026-02-12T10:00:00"])
          20260215 20260208 20260214
      = [⟨20260210, 20260212, "in_progress"⟩] :=
  ⟨C7_theorem _ 20260215 20260208 20260214
      ["ip@2026-02-10T09:00:00"] ["co@2026-02-12T10:00:00"] "garbage"
      (by decide) (by decide),
   by decide⟩

/-- C10: toggling completion with no section move (the task is in neither
`PROJECTS` nor `COMPLETED PROJECTS`, and not in a research section) keeps
the task in its section, leaves `in_progress` and `blocked_at` exactly
unchanged, sets `completed_at` to now and appends `co@` when completing,
and clears `completed_at` and appends `op@` when uncompleting. -/
theorem C10_theorem (se : String) (t : Task) (now : String)
    (h1 : se ≠ "PROJECTS") (h2 : se ≠ "COMPLETED PROJECTS")
    (h3 : se ∉ RESEARCH_SECTIONS) :
    ((toggle_complete_task se t now).1 = se
     ∧ (toggle_complete_task se t now).2.in_progress = t.in_progress
     ∧ (toggle_complete_task se t now).2.blocked_at = t.blocked_at
     ∧ (t.completed = false →
         (toggle_complete_task se t now).2.completed = true
         ∧ (toggle_complete_task se t now).2.completed_at = some now
         ∧ (toggle_complete_task se t now).2.history
            = some (history_with t.history ("co@" ++ now)))
     ∧ (t.completed = true →
         (toggle_complete_task se t now).2.completed = false
         ∧ (toggle_complete_task se t now).2.completed_at = none
         ∧ (toggle_complete_task se t now).2.history
            = some (history_with t.history ("op@" ++ now)))) := by
  cases hc : t.completed <;>
    (unfold toggle_complete_task append_history; split_ifs <;> simp_all)

/-- C10 (witness): completing a task by checkbox while it sits in
`IN PROGRESS TODAY` leaves it there with both `in_progress` and
`completed_at` non-null. -/
theorem C10_witness :
    (toggle_complete_task "IN PROGRESS TODAY"
        { id := "w10", text := "a", completed := false,
          in_progress := some "2026-02-10T09:00:00" }
        "2026-02-10T10:00:00").1 = "IN PROGRESS TODAY"
    ∧ (toggle_complete_task "IN PROGRESS TODAY"
        { id := "w10", text := "a", completed := false,
          in_progress := some "2026-02-10T09:00:00" }
        "2026-02-10T10:00:00").2.in_progress = some "2026-02-10T09:00:00"
    ∧ (toggle_complete_task "IN PROGRESS TODAY"
        { id := "w10", text := "a", completed := false,
          in_progress := some "2026-02-10T09:00:00" }
        "2026-02-10T10:00:00").2.completed_at = some "2026-02-10T10:00:00" := by
  have h := C10_theorem "IN PROGRESS TODAY"
    { id := "w10", text := "a", completed := false,
      in_progress := some "2026-02-10T09:00:00" }
    "2026-02-10T10:00:00" (by decide) (by decide) (by decide)
  exact ⟨h.1, h.2.1, (h.2.2.2.1 rfl).2.1⟩

/-- C9: a reorder-project request whose ordered id list is duplicate-free,
and whose ids all resolve to tasks already assigned to the project, sets
each listed task's `order_index` to its 0-based position in the list and
changes nothing else: every other field of every task — in particular
`updated` — is untouched (assuming store-unique task ids). -/
theorem C9_theorem (ss : Sections) (pid : String) (ids : List String)
    (hne : ids ≠ [])
    (hval : ∀ i ∈ ids, ∃ t, find_task ss i = some t ∧ t.assigned_project = some pid)
    (h1 : ids.Nodup) (h2 : (section_task_ids ss).Nodup) :
    reorder_project_tasks ss pid ids
      = .ok (map_tasks (fun t => if t.id ∈ ids
          then { t with order_index := some ((pos_in t.id ids : Nat) : Int) }
          else t) ss) := by
  unfold reorder_project_tasks
  rw [if_neg (by simp [hne])]
  rw [validate_reorder_of_forall ss pid ids hval]
  rw [apply_reorder_eq ids 0 ss h1 h2]
  have hfun : (fun t => if t.id ∈ ids
        then { t with order_index := some ((0 + pos_in t.id ids : Nat) : Int) }
        else t)
      = (fun t : Task => if t.id ∈ ids
        then { t with order_index := some ((pos_in t.id ids : Nat) : Int) }
        else t) := by
    funext t
    simp
  rw [hfun]

/-- C9 (witness): reordering via the explicit list ["C","A","B"] gives C
order 0, A order 1, B order 2, and leaves every `updated` (and all other
fields) unchanged. -/
theorem C9_witness :
    reorder_project_tasks
      [("PROJECTS", [{ id := "P", text := "proj", completed := false, color_index := some 1 }]),
       ("TODO THIS WEEK",
         [{ id := "A", text := "a", completed := false, assigned_project := some "P",
            updated := some "u1" },
          { id := "B", text := "b", completed := false, assigned_project := some "P",
            updated := some "u2" },
          { id := "C", text := "c", completed := false, assigned_project := some "P",
            updated := some "u3" }])]
      "P" ["C", "A", "B"]
    = .ok
      [("PROJECTS", [{ id := "P", text := "proj", completed := false, color_index := some 1 }]),
       ("TODO THIS WEEK",
         [{ id := "A", text := "a", completed := false, assigned_project := some "P",
            updated := some "u1", order_index := some 1 },
          { id := "B", text := "b", completed := false, assigned_project := some "P",
            updated := some "u2", order_index := some 2 },
          { id := "C", text := "c", completed := false, assigned_project := some "P",
            updated := some "u3", order_index := some 0 }])] := by
  have h := C9_theorem
    [("PROJECTS", [{ id := "P", text := "proj", completed := false, color_index := some 1 }]),
     ("TODO THIS WEEK",
       [{ id := "A", text := "a", completed := false, assigned_project := some "P",
          updated := some "u1" },
        { id := "B", text := "b", completed := false, assigned_project := some "P",
          updated := some "u2" },
        { id := "C", text := "c", completed := false, assigned_project := some "P",
          updated := some "u3" }])]
    "P" ["C", "A", "B"] (by decide)
    (by
      intro i hi
      simp only [List.mem_cons, List.not_mem_nil, or_false] at hi
      rcases hi with rfl | rfl | rfl
      · exact ⟨_, rfl, rfl⟩
      · exact ⟨_, rfl, rfl⟩
      · exact ⟨_, rfl, rfl⟩)
    (by decide) (by decide)
  rw [h]
  rfl

/-! ## Round-trip lemmas (`save_tasks` / `parse_tasks`) -/

theorem digit_digitChar (n : Nat) (h : n < 10) : digit? (Nat.digitChar n) = some n := by
  interval_cases n <;> decide

theorem isDigit_digitChar (n : Nat) (h : n < 10) : (Nat.digitChar n).isDigit = true := by
  interval_cases n <;> decide

theorem pyIsSpace_of_isDigit (c : Char) (h : c.isDigit = true) : pyIsSpace c = false := by
  by_contra hc
  simp only [Bool.not_eq_false] at hc
  unfold pyIsSpace at hc
  simp only [Bool.or_eq_true, decide_eq_true_eq] at hc
  rcases hc with ((((h1 | h1) | h1) | h1) | h1) | h1 <;> subst h1 <;> simp [Char.isDigit] at h

theorem natDigitsRevAux_digits (fuel n : Nat) (h : n < fuel) :
    ∀ c ∈ natDigitsRevAux fuel n, c.isDigit = true := by
  induction fuel generalizing n with
  | zero => omega
  | succ fuel ih =>
    intro c hc
    unfold natDigitsRevAux at hc
    split at hc
    · simp only [List.mem_singleton] at hc
      subst hc
      exact isDigit_digitChar n (by omega)
    · simp only [List.mem_cons] at hc
      rcases hc with rfl | hc
      · exact isDigit_digitChar (n % 10) (by omega)
      · exact ih (n / 10) (by omega) c hc

theorem foldDigits_natDigitsRevAux (fuel n : Nat) (h : n < fuel) (acc : Nat) :
    (natDigitsRevAux fuel n).reverse.foldl
        (fun a c =>
          match a, digit? c with
          | some x, some d => some (x * 10 + d)
          | _, _ => none)
        (some acc)
      = some (acc * 10 ^ (natDigitsRevAux fuel n).length + n) := by
  induction fuel generalizing n acc with
  | zero => omega
  | succ fuel ih =>
    unfold natDigitsRevAux
    split
    · simp [digit_digitChar n (by omega)]
    · rename_i hn
      simp only [List.reverse_cons, List.foldl_append, List.length_cons]
      rw [ih (n / 10) (by omega) acc]
      simp only [List.foldl_cons, List.foldl_nil]
      rw [digit_digitChar (n % 10) (by omega)]
      rw [pow_succ]
      generalize (10 : Nat) ^ (natDigitsRevAux fuel (n / 10)).length = K
      show some ((acc * K + n / 10) * 10 + n % 10) = some (acc * (K * 10) + n)
      congr 1
      have hmod : 10 * (n / 10) + n % 10 = n := Nat.div_add_mod n 10
      calc (acc * K + n / 10) * 10 + n % 10
          = (acc * K) * 10 + (10 * (n / 10) + n % 10) := by ring
        _ = acc * (K * 10) + n := by rw [hmod]; ring

theorem natDigitsRevAux_ne_nil (fuel n : Nat) (h : n < fuel) : natDigitsRevAux fuel n ≠ [] := by
  cases fuel with
  | zero => omega
  | succ fuel => unfold natDigitsRevAux; split <;> simp

theorem digits_to_nat_py_str_nat (n : Nat) :
    digits_to_nat (py_str_nat n).data = some n := by
  unfold py_str_nat digits_to_nat
  have hne : ((natDigitsRevAux (n + 1) n).reverse).isEmpty = false := by
    simp [List.isEmpty_iff, natDigitsRevAux_ne_nil (n + 1) n (by omega)]
  rw [if_neg (by simp [hne])]
  have := foldDigits_natDigitsRevAux (n + 1) n (by omega) 0
  simpa using this

theorem good_py_str_nat (n : Nat) : ∀ c ∈ (py_str_nat n).data, c.isDigit = true := by
  intro c hc
  unfold py_str_nat at hc
  exact natDigitsRevAux_digits (n + 1) n (by omega) c (List.mem_reverse.mp hc)

theorem toNat_lt_of_isDigit (c : Char) (h : c.isDigit = true) : c.toNat < 128 := by
  simp only [Char.isDigit, Bool.and_eq_true, decide_eq_true_eq] at h
  have h2 := h.2
  rw [UInt32.le_def, BitVec.le_def] at h2
  have h57 : ((57 : UInt32)).toBitVec.toNat = 57 := rfl
  simp only [Char.toNat, UInt32.toNat] at *
  omega

theorem dropWhile_eq_self_of_head (p : Char → Bool) (l : List Char)
    (h : ∀ c ∈ l, p c = false) : l.dropWhile p = l := by
  cases l with
  | nil => rfl
  | cons c cs =>
    rw [List.dropWhile_cons_of_neg (by simp [h c (by simp)])]

theorem py_strip_of_no_space (l : List Char) (h : ∀ c ∈ l, pyIsSpace c = false) :
    py_strip l = l := by
  unfold py_strip trimLeading trimTrailing
  rw [dropWhile_eq_self_of_head _ l h]
  rw [dropWhile_eq_self_of_head _ l.reverse (fun c hc => h c (List.mem_reverse.mp hc))]
  exact List.reverse_reverse l

theorem parse_py_int_py_str_int (i : Int) : parse_py_int (py_str_int i) = some i := by
  have hd : ∀ c ∈ (py_str_nat i.natAbs).data, c.isDigit = true := good_py_str_nat _
  unfold py_str_int parse_py_int
  split_ifs with hneg
  · have hs : py_strip ("-" ++ py_str_nat i.natAbs).data
        = '-' :: (py_str_nat i.natAbs).data := by
      rw [String.data_append]
      have hm : ("-" : String).data = ['-'] := rfl
      rw [hm]
      exact py_strip_of_no_space _ (by
        intro c hc
        simp only [List.mem_append, List.mem_singleton] at hc
        rcases hc with rfl | hc
        · decide
        · exact pyIsSpace_of_isDigit c (hd c hc))
    rw [hs]
    split
    · rename_i ds heq
      obtain rfl : (py_str_nat i.natAbs).data = ds := (List.cons.inj heq).2
      rw [digits_to_nat_py_str_nat i.natAbs]
      show some (-(i.natAbs : Int)) = some i
      congr 1
      omega
    · rename_i ds heq
      exact absurd (List.cons.inj heq).1 (by decide)
    · rename_i hn1 hn2
      exact absurd rfl (hn1 (py_str_nat i.natAbs).data)
  · have hs : py_strip (py_str_nat i.natAbs).data = (py_str_nat i.natAbs).data :=
      py_strip_of_no_space _ (fun c hc => pyIsSpace_of_isDigit c (hd c hc))
    rw [hs]
    split
    · rename_i ds heq
      exfalso
      have : ('-' : Char).isDigit = true := hd '-' (by rw [heq]; simp)
      simp at this
    · rename_i ds heq
      exfalso
      have : ('+' : Char).isDigit = true := hd '+' (by rw [heq]; simp)
      simp at this
    · rw [digits_to_nat_py_str_nat i.natAbs]
      show some ((i.natAbs : Int)) = some i
      congr 1
      omega

theorem scanMetaAux_nil (fuel : Nat) : scanMetaAux fuel [] = [] := by
  cases fuel <;> rfl

theorem takeWhile_all (p : Char → Bool) (l : List Char) (h : ∀ c ∈ l, p c = true) :
    l.takeWhile p = l := by
  induction l with
  | nil => rfl
  | cons c cs ih =>
    rw [List.takeWhile_cons_of_pos (h c (by simp))]
    rw [ih (fun d hd => h d (by simp [hd]))]

theorem dropWhile_all (p : Char → Bool) (l : List Char) (h : ∀ c ∈ l, p c = true) :
    l.dropWhile p = [] := by
  induction l with
  | nil => rfl
  | cons c cs ih =>
    rw [List.dropWhile_cons_of_pos (h c (by simp))]
    exact ih (fun d hd => h d (by simp [hd]))

theorem scanMetaAux_congr (f1 : Nat) : ∀ (f2 : Nat) (l : List Char),
    l.length ≤ f1 → l.length ≤ f2 → scanMetaAux f1 l = scanMetaAux f2 l := by
  induction f1 with
  | zero =>
    intro f2 l h1 _
    have : l = [] := List.length_eq_zero.mp (by omega)
    subst this
    rw [scanMetaAux_nil, scanMetaAux_nil]
  | succ f1 ih =>
    intro f2 l h1 h2
    cases l with
    | nil => rw [scanMetaAux_nil, scanMetaAux_nil]
    | cons c rest =>
      cases f2 with
      | zero => simp at h2
      | succ g =>
        simp only [List.length_cons] at h1 h2
        rw [scanMetaAux, scanMetaAux]
        by_cases hw : isWordChar c = true
        · rw [if_pos hw, if_pos hw]
          cases hd : rest.dropWhile isWordChar with
          | nil => exact ih g rest (by omega) (by omega)
          | cons x rem2 =>
            have hlen2 : rem2.length + 1 ≤ rest.length := by
              have := (List.dropWhile_sublist (l := rest) (p := isWordChar)).length_le
              rw [hd] at this
              simpa using this
            have hlen3 : (rem2.dropWhile (fun ch => !pyIsSpace ch)).length ≤ rem2.length :=
              (List.dropWhile_sublist _).length_le
            dsimp only
            by_cases hx : x = ':'
            · rw [if_pos hx, if_pos hx]
              by_cases hv : (rem2.takeWhile (fun ch => !pyIsSpace ch)).isEmpty = true
              · simp only [hv, if_true]
                exact ih g rest (by omega) (by omega)
              · simp only [hv, Bool.false_eq_true, if_false]
                congr 1
                exact ih g _ (by omega) (by omega)
            · rw [if_neg hx, if_neg hx]
              exact ih g rest (by omega) (by omega)
        · rw [if_neg hw, if_neg hw]
          exact ih g rest (by omega) (by omega)

theorem string_eta (s : String) : String.mk s.data = s := rfl

theorem scanMeta_pairs (ps : List (String × String)) (h : ∀ p ∈ ps, wf_pair p) :
    scanMeta (pairs_chars ps) = ps := by
  induction ps with
  | nil => rfl
  | cons p rest ih =>
    obtain ⟨k, v⟩ := p
    obtain ⟨hk_ne, hk_word, hv_ne, hv_nws⟩ := h (k, v) (by simp)
    obtain ⟨kc, ks, hkd⟩ := List.exists_cons_of_ne_nil hk_ne
    unfold scanMeta
    have hpc : pairs_chars ((k, v) :: rest)
        = kc :: (ks ++ ':' :: (v.data ++ tail_chars rest)) := by
      show k.data ++ ':' :: (v.data ++ tail_chars rest) = _
      rw [hkd]
      rfl
    rw [hpc]
    simp only [List.length_cons]
    rw [scanMetaAux]
    rw [if_pos (hk_word kc (by rw [hkd]; simp))]
    have hks_w : ∀ c ∈ ks, isWordChar c = true :=
      fun c hc => hk_word c (by rw [hkd]; simp [hc])
    have hdw : (ks ++ ':' :: (v.data ++ tail_chars rest)).dropWhile isWordChar
        = ':' :: (v.data ++ tail_chars rest) := by
      rw [List.dropWhile_append_of_pos hks_w]
      rw [List.dropWhile_cons_of_neg (by decide)]
    have htk : ∀ R : List Char, (ks ++ ':' :: R).takeWhile isWordChar = ks := by
      intro R
      rw [List.takeWhile_append_of_pos hks_w]
      rw [List.takeWhile_cons_of_neg (by decide)]
      simp
    rw [hdw]
    dsimp only
    rw [if_pos rfl]
    have hv_pos : ∀ c ∈ v.data, (!pyIsSpace c) = true := by
      intro c hc
      simp [hv_nws c hc]
    cases rest with
    | nil =>
      have htail : tail_chars ([] : List (String × String)) = [] := rfl
      rw [htail, List.append_nil]
      rw [takeWhile_all _ v.data hv_pos, dropWhile_all _ v.data hv_pos]
      rw [if_neg (by simp [List.isEmpty_iff, hv_ne])]
      rw [scanMetaAux_nil]
      simp only [htk]
      rw [← hkd, string_eta, string_eta]
    | cons q rest2 =>
      have htail : v.data ++ tail_chars (q :: rest2)
          = v.data ++ (' ' :: pairs_chars (q :: rest2)) := by
        show v.data ++ ((' ' :: (q.1.data ++ ':' :: q.2.data)) ++ tail_chars rest2) = _
        simp [pairs_chars]
      rw [htail]
      rw [List.takeWhile_append_of_pos hv_pos, List.dropWhile_append_of_pos hv_pos]
      rw [List.takeWhile_cons_of_neg (by decide), List.dropWhile_cons_of_neg (by decide)]
      rw [List.append_nil]
      rw [if_neg (by simp [List.isEmpty_iff, hv_ne])]
      simp only [htk]
      rw [← hkd, string_eta, string_eta]
      congr 1
      rw [scanMetaAux_congr (ks ++ ':' :: (v.data ++ ' ' :: pairs_chars (q :: rest2))).length
            (' ' :: pairs_chars (q :: rest2)).length
            (' ' :: pairs_chars (q :: rest2))
            (by simp [List.length_append]; omega)
            (Nat.le_refl _)]
      rw [List.length_cons, scanMetaAux]
      rw [if_neg (by decide)]
      exact ih (fun p hp => h p (by simp [hp]))

theorem intercalate_go_data (as : List String) (acc : String) :
    (String.intercalate.go acc " " as).data
      = acc.data ++ as.flatMap (fun p => ' ' :: p.data) := by
  induction as generalizing acc with
  | nil => simp [String.intercalate.go]
  | cons a as ih =>
    rw [String.intercalate.go, ih]
    simp [String.data_append]

theorem part_of_pair_data (p : String × String) :
    (part_of_pair p).data = p.1.data ++ ':' :: p.2.data := by
  show (p.1 ++ ":" ++ p.2).data = _
  rw [String.data_append, String.data_append]
  rw [show (":" : String).data = [':'] from rfl]
  simp

theorem tail_chars_eq (rest : List (String × String)) :
    (rest.map part_of_pair).flatMap (fun q => ' ' :: q.data) = tail_chars rest := by
  induction rest with
  | nil => rfl
  | cons q r ih =>
    simp only [List.map_cons, List.flatMap_cons, part_of_pair_data, ih]
    show _ = (' ' :: (q.1.data ++ ':' :: q.2.data)) ++ tail_chars r
    rfl

theorem intercalate_pairs_data (ps : List (String × String)) (hne : ps ≠ []) :
    (String.intercalate " " (ps.map part_of_pair)).data = pairs_chars ps := by
  obtain ⟨p, rest, rfl⟩ := List.exists_cons_of_ne_nil hne
  rw [List.map_cons]
  show (String.intercalate.go (part_of_pair p) " " (rest.map part_of_pair)).data = _
  rw [intercalate_go_data, part_of_pair_data, tail_chars_eq]
  show _ = p.1.data ++ ':' :: (p.2.data ++ tail_chars rest)
  simp [List.append_assoc]

theorem pairs_chars_ne_nil (p : String × String) (rest : List (String × String)) :
    pairs_chars (p :: rest) ≠ [] := by
  show p.1.data ++ ':' :: (p.2.data ++ tail_chars rest) ≠ []
  simp

theorem pairs_chars_last (ps : List (String × String)) (h : ∀ p ∈ ps, wf_pair p)
    (hne : ps ≠ []) :
    ∃ c, (pairs_chars ps).getLast? = some c ∧ pyIsSpace c = false := by
  induction ps with
  | nil => exact absurd rfl hne
  | cons p rest ih =>
    obtain ⟨hk_ne, hk_word, hv_ne, hv_nws⟩ := h p (by simp)
    cases rest with
    | nil =>
      rcases List.eq_nil_or_concat p.2.data with hv | ⟨vi, vl, hvd⟩
      · exact absurd hv hv_ne
      · refine ⟨vl, ?_, hv_nws vl (by rw [hvd]; simp)⟩
        show (p.1.data ++ ':' :: (p.2.data ++ tail_chars [])).getLast? = some vl
        rw [show tail_chars ([] : List (String × String)) = [] from rfl, List.append_nil, hvd]
        rw [List.concat_eq_append]
        rw [show p.1.data ++ ':' :: (vi ++ [vl]) = (p.1.data ++ ':' :: vi) ++ [vl] by simp]
        exact List.getLast?_concat _
    | cons q rest2 =>
      obtain ⟨c, hc, hcs⟩ := ih (fun r hr => h r (by simp [hr])) (by simp)
      refine ⟨c, ?_, hcs⟩
      show (p.1.data ++ ':' :: (p.2.data ++ tail_chars (q :: rest2))).getLast? = some c
      have ht : tail_chars (q :: rest2) = ' ' :: pairs_chars (q :: rest2) := by
        show (' ' :: (q.1.data ++ ':' :: q.2.data)) ++ tail_chars rest2 = _
        simp [pairs_chars]
      rw [ht]
      rw [show p.1.data ++ ':' :: (p.2.data ++ ' ' :: pairs_chars (q :: rest2))
            = (p.1.data ++ ':' :: (p.2.data ++ [' '])) ++ pairs_chars (q :: rest2) by simp]
      rw [List.getLast?_append, hc]
      rfl

theorem extractMeta_wrapped (md : List Char)
    (hne : md ≠ [])
    (hhead : ∃ c, md.head? = some c ∧ pyIsSpace c = false)
    (hlast : ∃ c, md.getLast? = some c ∧ pyIsSpace c = false)
    (hnl : '\n' ∉ md) :
    extractMeta (' ' :: (md ++ [' ', '-', '-', '>'])) = some md := by
  obtain ⟨h0, hh0, hh0s⟩ := hhead
  obtain ⟨hL, hhL, hhLs⟩ := hlast
  unfold extractMeta
  have hrev : (' ' :: (md ++ [' ', '-', '-', '>'])).reverse
      = '>' :: '-' :: '-' :: (' ' :: (md ++ [' '])).reverse := by
    rw [show md ++ [' ', '-', '-', '>'] = (md ++ [' ']) ++ ['-', '-', '>'] by simp]
    simp
  rw [hrev]
  split
  case h_2 hno => exact absurd rfl (hno ((' ' :: (md ++ [' '])).reverse))
  case h_1 coreRev heq =>
  obtain rfl : (' ' :: (md ++ [' '])).reverse = coreRev := by
    injection heq with h1 heq1
    injection heq1 with h2 heq2
    injection heq2 with h3 heq3
  rw [List.reverse_reverse]
  have htl : trimLeading (' ' :: (md ++ [' '])) = md ++ [' '] := by
    unfold trimLeading
    rw [List.dropWhile_cons_of_pos (by decide)]
    obtain ⟨m0, ms, rfl⟩ := List.exists_cons_of_ne_nil hne
    simp only [List.head?_cons, Option.some_inj] at hh0
    subst hh0
    rw [List.cons_append, List.dropWhile_cons_of_neg (by simp [hh0s])]
  have htt : trimTrailing (md ++ [' ']) = md := by
    unfold trimTrailing
    rw [show md ++ [' '] = md ++ [' '] from rfl]
    rw [List.reverse_append]
    simp only [List.reverse_cons, List.reverse_nil, List.nil_append, List.cons_append,
      List.nil_append]
    rw [List.dropWhile_cons_of_pos (by decide)]
    have : md.reverse.head? = some hL := by rw [List.head?_reverse]; exact hhL
    obtain ⟨r0, rs, hrd⟩ := List.exists_cons_of_ne_nil (by
      intro hcon
      rw [hcon] at this
      simp at this : md.reverse ≠ [])
    rw [hrd]
    rw [hrd] at this
    simp only [List.head?_cons, Option.some_inj] at this
    subst this
    rw [List.dropWhile_cons_of_neg (by simp [hhLs])]
    rw [← hrd, List.reverse_reverse]
  dsimp only
  rw [htl, htt]
  rw [if_neg (by simp [List.isEmpty_iff, hne])]
  rw [if_neg (by simp [hnl])]

theorem matchCommentPart_sepChars (md : List Char)
    (hne : md ≠ [])
    (hhead : ∃ c, md.head? = some c ∧ pyIsSpace c = false)
    (hlast : ∃ c, md.getLast? = some c ∧ pyIsSpace c = false)
    (hnl : '\n' ∉ md) :
    matchCommentPart (sepChars md) = some md := by
  unfold matchCommentPart sepChars
  rw [List.dropWhile_cons_of_pos (by decide)]
  rw [List.dropWhile_cons_of_neg (by decide)]
  split
  case h_2 hno => exact absurd rfl (hno (' ' :: (md ++ [' ', '-', '-', '>'])))
  case h_1 rest heq =>
    obtain rfl : ' ' :: (md ++ [' ', '-', '-', '>']) = rest := by
      injection heq with h1 heq1
      injection heq1 with h2 heq2
      injection heq2 with h3 heq3
      injection heq3 with h4 heq4
    exact extractMeta_wrapped md hne hhead hlast hnl

theorem containsSub_of_prefix_suffix (pat s l : List Char)
    (hp : pat.isPrefixOf s = true) (hs : s <:+ l) (hpat : pat ≠ []) :
    containsSub pat l = true := by
  induction l with
  | nil =>
    rw [List.suffix_nil] at hs
    subst hs
    cases pat with
    | nil => exact absurd rfl hpat
    | cons a b => simp [List.isPrefixOf] at hp
  | cons c rest ih =>
    rcases List.suffix_cons_iff.mp hs with h | h
    · subst h
      unfold containsSub
      rw [hp]
      rfl
    · unfold containsSub
      rw [ih h]
      simp

theorem getLast?_of_suffix (s l : List Char) (hs : s <:+ l) (hne : s ≠ []) :
    l.getLast? = s.getLast? := by
  obtain ⟨pre, rfl⟩ := hs
  rw [List.getLast?_append]
  rcases List.eq_nil_or_concat s with rfl | ⟨a, b, rfl⟩
  · exact absurd rfl hne
  · rw [List.concat_eq_append, List.getLast?_concat]
    rfl

theorem matchCommentPart_text_none (s md : List Char)
    (_hne : s ≠ [])
    (hlast : ∃ c, s.getLast? = some c ∧ pyIsSpace c = false)
    (hpre : ['<', '!', '-', '-'].isPrefixOf (s.dropWhile pyIsSpace) = false) :
    matchCommentPart (s ++ sepChars md) = none := by
  unfold matchCommentPart
  obtain ⟨cL, hcL, hcLs⟩ := hlast
  have hs' : s.dropWhile pyIsSpace ≠ [] := by
    intro hcon
    have hall := List.dropWhile_eq_nil_iff.mp hcon
    have hmem : cL ∈ s := List.mem_of_getLast?_eq_some hcL
    have := hall cL hmem
    rw [hcLs] at this
    exact absurd this (by simp)
  have hdw : (s ++ sepChars md).dropWhile pyIsSpace
      = s.dropWhile pyIsSpace ++ sepChars md := by
    rw [List.dropWhile_append]
    rw [if_neg (by simp [List.isEmpty_iff, hs'])]
  rw [hdw]
  split
  case h_2 => rfl
  case h_1 rest heq =>
  exfalso
  obtain ⟨c1, t1, hd1⟩ := List.exists_cons_of_ne_nil hs'
  rw [hd1] at heq hpre
  simp only [List.cons_append] at heq
  injection heq with e1 heq
  subst e1
  cases t1 with
  | nil =>
    simp only [List.nil_append] at heq
    unfold sepChars at heq
    injection heq with e2 heq
    exact absurd e2 (by decide)
  | cons c2 t2 =>
    simp only [List.cons_append] at heq
    injection heq with e2 heq
    subst e2
    cases t2 with
    | nil =>
      simp only [List.nil_append] at heq
      unfold sepChars at heq
      injection heq with e3 heq
      exact absurd e3 (by decide)
    | cons c3 t3 =>
      simp only [List.cons_append] at heq
      injection heq with e3 heq
      subst e3
      cases t3 with
      | nil =>
        simp only [List.nil_append] at heq
        unfold sepChars at heq
        injection heq with e4 heq
        exact absurd e4 (by decide)
      | cons c4 t4 =>
        simp only [List.cons_append] at heq
        injection heq with e4 heq
        subst e4
        simp [List.isPrefixOf] at hpre

theorem lazySplit_walk (md : List Char) : ∀ (tc : List Char) (acc : List Char),
    acc ≠ [] →
    (∀ s, s <:+ tc → s ≠ [] → matchCommentPart (s ++ sepChars md) = none) →
    (∀ c ∈ tc, c ≠ '\n') →
    matchCommentPart (sepChars md) = some md →
    lazySplit acc (tc ++ sepChars md) = some (acc ++ tc, some md) := by
  intro tc
  induction tc with
  | nil =>
    intro acc hacc _ _ hsep
    obtain ⟨a, acc2, rfl⟩ := List.exists_cons_of_ne_nil hacc
    rw [List.nil_append, List.append_nil]
    rw [show sepChars md
        = ' ' :: ('<' :: '!' :: '-' :: '-' :: ' ' :: (md ++ [' ', '-', '-', '>'])) from rfl]
    rw [lazySplit]
    rw [show (' ' :: ('<' :: '!' :: '-' :: '-' :: ' ' :: (md ++ [' ', '-', '-', '>'])))
        = sepChars md from rfl]
    rw [hsep]
    all_goals simp
  | cons c tc2 ih =>
    intro acc hacc hnomatch hnl hsep
    obtain ⟨a, acc2, rfl⟩ := List.exists_cons_of_ne_nil hacc
    rw [List.cons_append]
    rw [lazySplit]
    have hm : matchCommentPart (c :: (tc2 ++ sepChars md)) = none := by
      have := hnomatch (c :: tc2) (List.suffix_refl _) (by simp)
      simpa [List.cons_append] using this
    rw [hm]
    dsimp only
    rw [if_neg (hnl c (by simp))]
    rw [ih ((a :: acc2) ++ [c]) (by simp)
        (fun s hs hsne => hnomatch s (List.suffix_cons_iff.mpr (Or.inr hs)) hsne)
        (fun d hd => hnl d (by simp [hd])) hsep]
    all_goals simp

theorem trimTrailing_length_le (l : List Char) : (trimTrailing l).length ≤ l.length := by
  unfold trimTrailing
  rw [List.length_reverse]
  calc (l.reverse.dropWhile pyIsSpace).length
      ≤ l.reverse.length := (List.dropWhile_sublist _).length_le
    _ = l.length := List.length_reverse _

theorem strip_bounds (l : List Char) (hne : l ≠ []) (h : py_strip l = l) :
    (∃ c0, l.head? = some c0 ∧ pyIsSpace c0 = false)
    ∧ (∃ cL, l.getLast? = some cL ∧ pyIsSpace cL = false) := by
  constructor
  · obtain ⟨c0, t0, rfl⟩ := List.exists_cons_of_ne_nil hne
    cases hws : pyIsSpace c0 with
    | false => exact ⟨c0, rfl, hws⟩
    | true =>
      exfalso
      have hlen : (py_strip (c0 :: t0)).length < (c0 :: t0).length := by
        unfold py_strip trimLeading
        rw [List.dropWhile_cons_of_pos (by simp [hws])]
        calc (trimTrailing (t0.dropWhile pyIsSpace)).length
            ≤ (t0.dropWhile pyIsSpace).length := trimTrailing_length_le _
          _ ≤ t0.length := (List.dropWhile_sublist _).length_le
          _ < (c0 :: t0).length := by simp
      rw [h] at hlen
      omega
  · have hsome : ∃ cL, l.getLast? = some cL := by
      rcases List.eq_nil_or_concat l with rfl | ⟨a, b, rfl⟩
      · exact absurd rfl hne
      · exact ⟨b, by rw [List.concat_eq_append, List.getLast?_concat]⟩
    obtain ⟨cL, hcL⟩ := hsome
    cases hws : pyIsSpace cL with
    | false => exact ⟨cL, hcL, hws⟩
    | true =>
      exfalso
      cases htleq : trimLeading l with
      | nil =>
        have : py_strip l = [] := by unfold py_strip; rw [htleq]; rfl
        rw [h] at this
        exact hne this
      | cons x xs =>
        have htl_ne : trimLeading l ≠ [] := by rw [htleq]; simp
        have hsuf : trimLeading l <:+ l := List.dropWhile_suffix _
        have hlast_tl : (trimLeading l).getLast? = some cL := by
          rw [← getLast?_of_suffix (trimLeading l) l hsuf htl_ne]
          exact hcL
        have hlen : (py_strip l).length < l.length := by
          unfold py_strip trimTrailing
          have hrev_head : (trimLeading l).reverse.head? = some cL := by
            rw [List.head?_reverse]
            exact hlast_tl
          obtain ⟨r0, rs, hrd⟩ := List.exists_cons_of_ne_nil
            (show (trimLeading l).reverse ≠ [] by simp [htl_ne])
          rw [hrd] at hrev_head
          simp only [List.head?_cons, Option.some_inj] at hrev_head
          subst hrev_head
          rw [hrd]
          rw [List.dropWhile_cons_of_pos (by simp [hws])]
          have h1 : (rs.dropWhile pyIsSpace).length ≤ rs.length :=
            (List.dropWhile_sublist _).length_le
          have h2 : rs.length + 1 = (trimLeading l).length := by
            have := congrArg List.length hrd
            simp at this
            omega
          have h3 : (trimLeading l).length ≤ l.length :=
            (List.dropWhile_sublist _).length_le
          rw [List.length_reverse]
          omega
        rw [h] at hlen
        omega

theorem suffix_matchComment_none (text md : List Char)
    (hstrip : py_strip text = text)
    (hnoc : containsSub ['<', '!', '-', '-'] text = false)
    (hne : text ≠ []) :
    ∀ s, s <:+ text → s ≠ [] → matchCommentPart (s ++ sepChars md) = none := by
  intro s hs hsne
  obtain ⟨cL, hcL, hcLs⟩ := (strip_bounds text hne hstrip).2
  refine matchCommentPart_text_none s md hsne
    ⟨cL, ?_, hcLs⟩ ?_
  · rw [← getLast?_of_suffix s text hs hsne]
    exact hcL
  · by_contra hcon
    simp only [Bool.not_eq_false] at hcon
    have hsub : (s.dropWhile pyIsSpace) <:+ text :=
      (List.dropWhile_suffix _).trans hs
    have := containsSub_of_prefix_suffix ['<', '!', '-', '-']
      (s.dropWhile pyIsSpace) text hcon hsub (by simp)
    rw [hnoc] at this
    exact absurd this (by simp)

theorem lazySplit_serialized (text md : List Char)
    (htext_nl : ∀ c ∈ text, c ≠ '\n')
    (hstrip : py_strip text = text)
    (hnoc : containsSub ['<', '!', '-', '-'] text = false)
    (hmdne : md ≠ [])
    (hmdhead : ∃ c, md.head? = some c ∧ pyIsSpace c = false)
    (hmdlast : ∃ c, md.getLast? = some c ∧ pyIsSpace c = false)
    (hmdnl : '\n' ∉ md) :
    lazySplit [] (text ++ sepChars md)
      = some ((if text = [] then [' '] else text), some md) := by
  have hsep : matchCommentPart (sepChars md) = some md :=
    matchCommentPart_sepChars md hmdne hmdhead hmdlast hmdnl
  cases text with
  | nil =>
    rw [if_pos rfl, List.nil_append]
    rw [show sepChars md
        = ' ' :: ('<' :: '!' :: '-' :: '-' :: ' ' :: (md ++ [' ', '-', '-', '>'])) from rfl]
    rw [lazySplit]
    rw [if_neg (by decide)]
    have hmS : matchCommentPart
        ('<' :: '!' :: '-' :: '-' :: ' ' :: (md ++ [' ', '-', '-', '>'])) = some md := by
      unfold matchCommentPart
      rw [List.dropWhile_cons_of_neg (by decide)]
      split
      case h_2 hno => exact absurd rfl (hno (' ' :: (md ++ [' ', '-', '-', '>'])))
      case h_1 rest heq =>
        obtain rfl : ' ' :: (md ++ [' ', '-', '-', '>']) = rest := by
          injection heq with h1 heq1
          injection heq1 with h2 heq2
          injection heq2 with h3 heq3
          injection heq3 with h4 heq4
        exact extractMeta_wrapped md hmdne hmdhead hmdlast hmdnl
    rw [lazySplit, hmS]
    all_goals simp
  | cons c tc =>
    rw [if_neg (by simp), List.cons_append, lazySplit]
    rw [if_neg (htext_nl c (by simp))]
    rw [lazySplit_walk md tc [c] (by simp)
        (fun s hs hsne => suffix_matchComment_none (c :: tc) md hstrip hnoc (by simp) s
          (List.suffix_cons_iff.mpr (Or.inr hs)) hsne)
        (fun d hd => htext_nl d (by simp [hd])) hsep]
    all_goals simp

theorem meta_pairs_ne_nil (se : String) (t : Task) : meta_pairs se t ≠ [] := by
  unfold meta_pairs
  simp

theorem meta_parts_eq_pairs (se : String) (t : Task) :
    meta_parts se t = (meta_pairs se t).map part_of_pair := by
  unfold meta_parts meta_pairs
  cases t.order_index <;>
    simp only [List.map_append, apply_ite (List.map part_of_pair), List.map_cons,
      List.map_nil] <;> rfl

theorem py_str_nat_ne_nil (n : Nat) : (py_str_nat n).data ≠ [] := by
  show (natDigitsRevAux (n + 1) n).reverse ≠ []
  simp [natDigitsRevAux_ne_nil (n + 1) n (by omega)]

theorem good_py_str_int (i : Int) : good_value (py_str_int i) := by
  constructor
  · unfold py_str_int
    split_ifs
    · rw [String.data_append]
      simp [py_str_nat_ne_nil]
    · exact py_str_nat_ne_nil _
  · intro c hc
    unfold py_str_int at hc
    split_ifs at hc
    · rw [String.data_append] at hc
      rcases List.mem_append.mp hc with h | h
      · simp at h
        subst h
        decide
      · exact pyIsSpace_of_isDigit c (good_py_str_nat _ c h)
    · exact pyIsSpace_of_isDigit c (good_py_str_nat _ c hc)

theorem good_opt_wf (o : Option String) (k : String) (hk : k.data ≠ [])
    (hkw : ∀ c ∈ k.data, isWordChar c = true)
    (h : good_opt_value o) (ht : truthy o = true) : wf_pair (k, o.getD "") := by
  cases o with
  | none => exact absurd ht (by simp [truthy])
  | some v =>
    refine ⟨hk, hkw, ?_, ?_⟩
    · exact h.1
    · exact h.2

theorem wf_pair_mk (k v : String) (h1 : k.data ≠ [])
    (h2 : ∀ c ∈ k.data, isWordChar c = true) (h3 : good_value v) :
    wf_pair (k, v) := ⟨h1, h2, h3.1, h3.2⟩

theorem meta_pairs_wf (se : String) (t : Task) (h : round_trip_safe se t) :
    ∀ p ∈ meta_pairs se t, wf_pair p := by
  obtain ⟨hid, _, _, _, hc, hu, hip, hca, hba, hh, hap, _, _⟩ := h
  intro p hp
  unfold meta_pairs at hp
  simp only [List.cons_append, List.nil_append, List.mem_cons, List.mem_append] at hp
  rcases hp with hp | hp
  · subst hp
    exact wf_pair_mk _ _ (by decide) (by decide) hid
  rcases hp with ((((((hp | hp) | hp) | hp) | hp) | hp) | hp) | hp
  · split at hp
    · simp at hp
      subst hp
      exact wf_pair_mk _ _ (by decide) (by decide) (good_py_str_int _)
    · split at hp
      · simp at hp
        subst hp
        exact good_opt_wf _ _ (by decide) (by decide) hap (by assumption)
      · simp at hp
  · split at hp
    · simp at hp
      subst hp
      exact good_opt_wf _ _ (by decide) (by decide) hc (by assumption)
    · simp at hp
  · split at hp
    · simp at hp
      subst hp
      exact good_opt_wf _ _ (by decide) (by decide) hu (by assumption)
    · simp at hp
  · split at hp
    · simp at hp
      subst hp
      exact good_opt_wf _ _ (by decide) (by decide) hip (by assumption)
    · simp at hp
  · split at hp
    · simp at hp
      subst hp
      exact good_opt_wf _ _ (by decide) (by decide) hca (by assumption)
    · simp at hp
  · split at hp
    · simp at hp
      subst hp
      exact good_opt_wf _ _ (by decide) (by decide) hba (by assumption)
    · simp at hp
  · split at hp
    · simp at hp
      subst hp
      exact good_opt_wf _ _ (by decide) (by decide) hh (by assumption)
    · simp at hp
  · split at hp
    · simp at hp
      subst hp
      exact wf_pair_mk _ _ (by decide) (by decide) (good_py_str_int _)
    · simp at hp

theorem metaGet_append (A B : List (String × String)) (k : String) :
    metaGet (A ++ B) k = (metaGet B k).or (metaGet A k) := by
  unfold metaGet
  rw [List.reverse_append, List.find?_append]
  cases hb : List.find? (fun p => p.1 == k) B.reverse <;>
    cases ha : List.find? (fun p => p.1 == k) A.reverse <;> simp [Option.or]

theorem metaGet_ite (c : Prop) [Decidable c] (A B : List (String × String))
    (k : String) :
    metaGet (if c then A else B) k = if c then metaGet A k else metaGet B k := by
  split_ifs <;> rfl

theorem metaGet_nil (k : String) : metaGet [] k = none := rfl

theorem metaGet_single (kv : String × String) (k : String) :
    metaGet [kv] k = if (kv.1 == k) = true then some kv.2 else none := by
  unfold metaGet
  simp only [List.reverse_cons, List.reverse_nil, List.nil_append, List.find?_singleton]
  split_ifs <;> simp

theorem metaGet_cons (kv : String × String) (B : List (String × String)) (k : String) :
    metaGet (kv :: B) k
      = (metaGet B k).or (if (kv.1 == k) = true then some kv.2 else none) := by
  have h := metaGet_append [kv] B k
  rw [metaGet_single] at h
  simpa using h

theorem metaGet_id (se : String) (t : Task) :
    metaGet (meta_pairs se t) "id" = some t.id := by
  unfold meta_pairs
  cases t.order_index <;> dsimp only <;>
    simp +decide [metaGet_append, metaGet_cons, metaGet_ite, metaGet_nil]

theorem metaGet_project (se : String) (t : Task) :
    metaGet (meta_pairs se t) "project"
      = (if (PROJECT_SECTIONS.contains se && int_truthy t.color_index) = true then
           some (py_str_int (t.color_index.getD 0))
         else none) := by
  unfold meta_pairs
  cases t.order_index <;> dsimp only <;>
    simp +decide [metaGet_append, metaGet_cons, metaGet_ite, metaGet_nil]

theorem metaGet_assigned (se : String) (t : Task) :
    metaGet (meta_pairs se t) "assigned"
      = (if (PROJECT_SECTIONS.contains se && int_truthy t.color_index) = true then
           none
         else if truthy t.assigned_project = true then
           some (t.assigned_project.getD "")
         else none) := by
  unfold meta_pairs
  cases t.order_index <;> dsimp only <;>
    simp +decide [metaGet_append, metaGet_cons, metaGet_ite, metaGet_nil]

theorem metaGet_created (se : String) (t : Task) :
    metaGet (meta_pairs se t) "created"
      = (if truthy t.created = true then some (t.created.getD "") else none) := by
  unfold meta_pairs
  cases t.order_index <;> dsimp only <;>
    simp +decide [metaGet_append, metaGet_cons, metaGet_ite, metaGet_nil]

theorem metaGet_updated (se : String) (t : Task) :
    metaGet (meta_pairs se t) "updated"
      = (if truthy t.updated = true then some (t.updated.getD "") else none) := by
  unfold meta_pairs
  cases t.order_index <;> dsimp only <;>
    simp +decide [metaGet_append, metaGet_cons, metaGet_ite, metaGet_nil]

theorem metaGet_in_progress (se : String) (t : Task) :
    metaGet (meta_pairs se t) "in_progress"
      = (if truthy t.in_progress = true then some (t.in_progress.getD "") else none) := by
  unfold meta_pairs
  cases t.order_index <;> dsimp only <;>
    simp +decide [metaGet_append, metaGet_cons, metaGet_ite, metaGet_nil]

theorem metaGet_completed_at (se : String) (t : Task) :
    metaGet (meta_pairs se t) "completed_at"
      = (if truthy t.completed_at = true then some (t.completed_at.getD "") else none) := by
  unfold meta_pairs
  cases t.order_index <;> dsimp only <;>
    simp +decide [metaGet_append, metaGet_cons, metaGet_ite, metaGet_nil]

theorem metaGet_blocked_at (se : String) (t : Task) :
    metaGet (meta_pairs se t) "blocked_at"
      = (if truthy t.blocked_at = true then some (t.blocked_at.getD "") else none) := by
  unfold meta_pairs
  cases t.order_index <;> dsimp only <;>
    simp +decide [metaGet_append, metaGet_cons, metaGet_ite, metaGet_nil]

theorem metaGet_history (se : String) (t : Task) :
    metaGet (meta_pairs se t) "history"
      = (if truthy t.history = true then some (t.history.getD "") else none) := by
  unfold meta_pairs
  cases t.order_index <;> dsimp only <;>
    simp +decide [metaGet_append, metaGet_cons, metaGet_ite, metaGet_nil]

theorem metaGet_order_index (se : String) (t : Task) :
    metaGet (meta_pairs se t) "order_index"
      = t.order_index.map (fun oi => py_str_int oi) := by
  unfold meta_pairs
  cases t.order_index <;> dsimp only <;>
    simp +decide [metaGet_append, metaGet_cons, metaGet_ite, metaGet_nil]

theorem serialize_data (se : String) (t : Task) :
    (serialize_task_line se t).data
      = '-' :: ' ' :: '[' :: (if t.completed then 'x' else ' ') :: ']' :: ' '
          :: (t.text.data ++ sepChars (pairs_chars (meta_pairs se t))) := by
  unfold serialize_task_line
  rw [meta_parts_eq_pairs]
  simp only [String.data_append]
  rw [intercalate_pairs_data _ (meta_pairs_ne_nil se t)]
  cases t.completed <;> simp [sepChars, List.append_assoc]

theorem md_head (se : String) (t : Task) :
    (pairs_chars (meta_pairs se t)).head? = some 'i' := rfl

theorem tail_chars_no_nl (ps : List (String × String)) (h : ∀ p ∈ ps, wf_pair p) :
    '\n' ∉ tail_chars ps := by
  intro hmem
  unfold tail_chars at hmem
  rw [List.mem_flatMap] at hmem
  obtain ⟨q, hq, hc⟩ := hmem
  obtain ⟨_, hkw, _, hvw⟩ := h q hq
  simp only [List.mem_cons, List.mem_append] at hc
  rcases hc with hc | (hc | (hc | hc))
  · exact absurd hc (by decide)
  · exact absurd (hkw _ hc) (by decide)
  · exact absurd hc (by decide)
  · exact absurd (hvw _ hc) (by decide)

theorem pairs_chars_no_nl (ps : List (String × String)) (h : ∀ p ∈ ps, wf_pair p) :
    '\n' ∉ pairs_chars ps := by
  cases ps with
  | nil => simp [pairs_chars]
  | cons p rest =>
    intro hmem
    obtain ⟨_, hkw, _, hvw⟩ := h p (by simp)
    rw [show pairs_chars (p :: rest)
        = p.1.data ++ ':' :: (p.2.data ++ tail_chars rest) from rfl] at hmem
    simp only [List.mem_append, List.mem_cons] at hmem
    rcases hmem with hc | (hc | (hc | hc))
    · exact absurd (hkw _ hc) (by decide)
    · exact absurd hc (by decide)
    · exact absurd (hvw _ hc) (by decide)
    · exact tail_chars_no_nl rest (fun q hq => h q (by simp [hq])) hc

theorem truthy_of_good (v : String) (h : good_value v) : truthy (some v) = true := by
  simp only [truthy, ne_eq, decide_eq_true_eq]
  intro hveq
  subst hveq
  exact h.1 rfl

theorem good_opt_if (o : Option String) (h : good_opt_value o) :
    (if truthy o = true then some (o.getD "") else none) = o := by
  cases o with
  | none => simp [truthy]
  | some v => rw [if_pos (truthy_of_good v h)]; rfl

/-- Line-level round trip: for a `round_trip_safe` task, the line loop of
`parse_tasks` recovers the task exactly from the line `save_tasks` writes
(the two post-parse migration passes are handled separately, at the sections
level). -/
theorem serialize_then_parse_line (fresh se : String) (t : Task) (h : round_trip_safe se t) :
    parse_task_line fresh se (serialize_task_line se t) = some t := by
  obtain ⟨tid, ttext, tcomp, tcr, tup, tip, tca, tba, thi, tap, toi, tci⟩ := t
  obtain ⟨hid, hstrip, hnl, hnoc, hcr, hu, hipv, hcav, hbav, hhv, hapv, hproj, hnp⟩ := h
  have hwf : ∀ p ∈ meta_pairs se ⟨tid, ttext, tcomp, tcr, tup, tip, tca, tba, thi, tap, toi, tci⟩,
      wf_pair p :=
    meta_pairs_wf se _ ⟨hid, hstrip, hnl, hnoc, hcr, hu, hipv, hcav, hbav, hhv, hapv, hproj, hnp⟩
  have hmdne : pairs_chars (meta_pairs se ⟨tid, ttext, tcomp, tcr, tup, tip, tca, tba, thi, tap, toi, tci⟩) ≠ [] := by
    intro he
    have hh2 := md_head se ⟨tid, ttext, tcomp, tcr, tup, tip, tca, tba, thi, tap, toi, tci⟩
    rw [he] at hh2
    simp at hh2
  have hlz := lazySplit_serialized ttext.data
      (pairs_chars (meta_pairs se ⟨tid, ttext, tcomp, tcr, tup, tip, tca, tba, thi, tap, toi, tci⟩))
      hnl hstrip hnoc hmdne
      ⟨'i', md_head se _, by decide⟩
      (pairs_chars_last _ hwf (meta_pairs_ne_nil se _))
      (pairs_chars_no_nl _ hwf)
  have htext : (⟨py_strip (if ttext.data = [] then [' '] else ttext.data)⟩ : String) = ttext := by
    by_cases htxt : ttext.data = []
    · rw [if_pos htxt]
      have h0 : py_strip [' '] = ([] : List Char) := by decide
      rw [h0, ← string_eta ttext, htxt]
    · rw [if_neg htxt, hstrip]
  unfold parse_task_line
  rw [serialize_data]
  split
  case h_2 hno =>
    exact absurd rfl (hno (if tcomp then 'x' else ' ')
      (ttext.data ++ sepChars (pairs_chars (meta_pairs se ⟨tid, ttext, tcomp, tcr, tup, tip, tca, tba, thi, tap, toi, tci⟩))))
  case h_1 c rest heq =>
    injection heq with e1 heq
    injection heq with e2 heq
    injection heq with e3 heq
    injection heq with e4 heq
    injection heq with e5 heq
    injection heq with e6 heq
    subst heq
    have hctc : (c = ' ' ∧ tcomp = false) ∨ (c = 'x' ∧ tcomp = true) := by
      cases tcomp
      · exact Or.inl ⟨e4.symm, rfl⟩
      · exact Or.inr ⟨e4.symm, rfl⟩
    clear e4
    rcases hctc with ⟨rfl, rfl⟩ | ⟨rfl, rfl⟩ <;>
      (rw [if_pos (by decide)]
       rw [hlz]
       dsimp only
       rw [scanMeta_pairs _ hwf]
       rw [metaGet_id, metaGet_project, metaGet_assigned, metaGet_created,
         metaGet_updated, metaGet_in_progress, metaGet_completed_at,
         metaGet_blocked_at, metaGet_history, metaGet_order_index]
       dsimp only
       rw [good_opt_if tcr hcr, good_opt_if tup hu, good_opt_if tip hipv,
         good_opt_if tca hcav, good_opt_if tba hbav, good_opt_if thi hhv]
       rw [htext]
       cases hps : PROJECT_SECTIONS.contains se
       case false =>
         obtain rfl : tci = none := hnp hps
         rw [if_neg (by decide)]
         rw [if_neg (by decide)]
         rw [good_opt_if tap hapv]
         cases toi <;> simp [parse_py_int_py_str_int]
       case true =>
         rw [if_pos rfl]
         cases tci
         case none =>
           have hcolor := (hproj hps).1
           simp [int_truthy] at hcolor
         case some n =>
           obtain ⟨hit, rfl⟩ := hproj hps
           rw [if_pos (by simp [hit])]
           rw [if_pos (by simp [hit])]
           cases toi <;> simp [parse_py_int_py_str_int])

theorem lookup_mem {ss : Sections} {sn : String} {ts : List Task}
    (h : ss.lookup sn = some ts) : (sn, ts) ∈ ss := by
  obtain ⟨l1, l2, rfl, -⟩ := List.lookup_eq_some_iff.mp h
  simp

theorem filterMap_id_of_forall {α : Type} (f : α → Option α) (l : List α)
    (h : ∀ x ∈ l, f x = some x) : l.filterMap f = l := by
  induction l with
  | nil => rfl
  | cons a rest ih =>
    rw [List.filterMap_cons, h a (by simp)]
    rw [ih (fun x hx => h x (by simp [hx]))]

theorem parse_saved_sections_eq (fresh : String) (ss : Sections)
    (h : ∀ s ∈ ss, ∀ t ∈ s.2, round_trip_safe s.1 t) :
    parse_saved_sections fresh ss = ss := by
  unfold parse_saved_sections
  conv_rhs => rw [← List.map_id ss]
  refine List.map_congr_left (fun s hs => ?_)
  rw [filterMap_id_of_forall _ _
    (fun t ht => serialize_then_parse_line fresh s.1 t (h s hs t ht))]
  rfl

theorem migrate_colors_tasks_no_op (sn : String) (done ts : List Task) (ss : Sections)
    (h : ∀ t ∈ ts, t.color_index ≠ none) :
    migrate_colors_tasks sn done ts ss = ss := by
  induction ts generalizing done with
  | nil => rfl
  | cons t rest ih =>
    rw [migrate_colors_tasks, if_neg (h t (by simp))]
    exact ih (done ++ [t]) (fun x hx => h x (by simp [hx]))

theorem migrate_project_colors_no_op (ss : Sections)
    (h : ∀ sn ts, PROJECT_SECTIONS.contains sn = true → ss.lookup sn = some ts →
       ∀ t ∈ ts, t.color_index ≠ none) :
    migrate_project_colors ss = ss := by
  have step : ∀ sn : String, PROJECT_SECTIONS.contains sn = true →
      (match ss.lookup sn with
       | some ts => migrate_colors_tasks sn [] ts ss
       | none => ss) = ss := by
    intro sn hsn
    cases hl : ss.lookup sn with
    | none => rfl
    | some ts => exact migrate_colors_tasks_no_op sn [] ts ss (h sn ts hsn hl)
  unfold migrate_project_colors
  rw [show PROJECT_SECTIONS = ["PROJECTS", "COMPLETED PROJECTS"] from rfl]
  simp only [List.foldl_cons, List.foldl_nil]
  rw [step "PROJECTS" (by decide), step "COMPLETED PROJECTS" (by decide)]

theorem fix_orphan_id (valid : List String) (o2n : List (String × String)) (t : Task)
    (h : ∀ a, t.assigned_project = some a → valid.contains a = true) :
    fix_orphan valid o2n t = t := by
  unfold fix_orphan
  cases ha : t.assigned_project with
  | none => rw [if_neg (by simp [truthy])]
  | some a =>
    have hc := h a ha
    by_cases hae : a = ""
    · subst hae
      rw [if_neg (by simp [truthy])]
    · have hmem : a ∈ valid := by simpa using hc
      rw [if_neg (by simp [hmem])]

theorem migrate_orphaned_no_op (u5 : String → String) (ss : Sections)
    (h : ∀ s ∈ ss, PROJECT_SECTIONS.contains s.1 = false → ∀ t ∈ s.2, ∀ a,
        t.assigned_project = some a → (valid_project_ids ss).contains a = true) :
    migrate_orphaned_assignments u5 ss = ss := by
  unfold migrate_orphaned_assignments
  dsimp only
  conv_rhs => rw [← List.map_id ss]
  refine List.map_congr_left (fun s hs => ?_)
  cases hc : PROJECT_SECTIONS.contains s.1
  case true => rw [if_pos rfl]; rfl
  case false =>
    rw [if_neg (by simp)]
    show (s.1, s.2.map (fix_orphan (valid_project_ids ss) (old_to_new_id u5 ss))) = s
    rw [List.map_congr_left
          (fun t ht => fix_orphan_id _ _ t (fun a ha => h s hs hc t ht a ha))]
    simp

/-- C8: the full save-then-parse pipeline of `parse_tasks` — the per-line
regex parse followed by the `migrate_project_colors` and
`migrate_orphaned_assignments` passes it runs before returning — is the
identity on a sections map whose tasks are `round_trip_safe` (strip-invariant
single-line texts free of the comment opener; nonempty whitespace-free ids and
present values; project tasks carrying a truthy color and no assignment,
non-project tasks no color) and whose truthy assignments all reference an
existing project id (so the orphan migration has nothing to rewrite, for every
uuid5 oracle `u5`).  Every task field comes back identical, `order_index` as
an integer, absent optional fields absent. -/
theorem C8_theorem (fresh : String) (u5 : String → String) (ss : Sections)
    (hsafe : ∀ s ∈ ss, ∀ t ∈ s.2, round_trip_safe s.1 t)
    (hvalid : ∀ s ∈ ss, PROJECT_SECTIONS.contains s.1 = false → ∀ t ∈ s.2, ∀ a,
        t.assigned_project = some a → (valid_project_ids ss).contains a = true) :
    parse_tasks_model fresh u5 ss = ss := by
  unfold parse_tasks_model
  rw [parse_saved_sections_eq fresh ss hsafe]
  rw [migrate_project_colors_no_op ss (fun sn ts hsn hl t ht => by
    obtain ⟨_, _, _, _, _, _, _, _, _, _, _, hproj, _⟩ :=
      hsafe (sn, ts) (lookup_mem hl) t ht
    obtain ⟨hcolor, -⟩ := hproj hsn
    intro hnone
    rw [hnone] at hcolor
    exact absurd hcolor (by decide))]
  exact migrate_orphaned_no_op u5 ss hvalid

/-- The original C8 hypotheses (texts without comment markers, metadata values
without whitespace) do not suffice, on two counts.  First, a task text with a
trailing space — which contains no comment marker — is stripped by the parser,
so the round trip changes the text.  Second, a PROJECTS task with no
color_index satisfies them too, and the `migrate_project_colors` pass inside
`parse_tasks` assigns it a color, so an absent optional field comes back
present. -/
theorem C8_counterexample :
    (containsSub ['<', '!', '-', '-'] ("a " : String).data = false
     ∧ parse_tasks_model "F" (fun _ => "m")
         [("FOLLOW UPS", [{ id := "i", text := "a ", completed := false }])]
         = [("FOLLOW UPS", [{ id := "i", text := "a", completed := false }])]
     ∧ ("a " : String) ≠ "a")
    ∧ (parse_tasks_model "F" (fun _ => "m")
         [("PROJECTS", [{ id := "p", text := "P", completed := false }])]
         = [("PROJECTS", [{ id := "p", text := "P", completed := false,
                            color_index := some 1 }])]
       ∧ ({ id := "p", text := "P", completed := false } : Task).color_index
           = none) := by
  refine ⟨⟨by decide, ?_, by decide⟩, ?_, by decide⟩
  · decide
  · decide

/-- Witness for C8: a concrete safe sections map — a colored project and a
completed task assigned to it, with a created timestamp and an order index —
is reproduced exactly by the full pipeline. -/
theorem C8_witness :
    parse_tasks_model "F" (fun _ => "m")
        [("PROJECTS", [{ id := "p", text := "P", completed := false,
                         color_index := some 3 }]),
         ("FOLLOW UPS", [{ id := "i", text := "a", completed := true,
                           created := some "2026-01-02T03:04:05",
                           assigned_project := some "p", order_index := some 2 }])]
      = [("PROJECTS", [{ id := "p", text := "P", completed := false,
                         color_index := some 3 }]),
         ("FOLLOW UPS", [{ id := "i", text := "a", completed := true,
                           created := some "2026-01-02T03:04:05",
                           assigned_project := some "p", order_index := some 2 }])] :=
  C8_theorem "F" (fun _ => "m") _ (by decide) (by decide)

end Crumbwise
